import Mathlib

/-!
# Verification of the `vflag` command-line flag library

This file gives a shallow embedding, in Lean 4, of the core of the
`vflag` Go package (short/long flag descriptors, the typed-value family,
the flag-set parse/dispatch algorithm, the error-handling policy, and the
usage renderer with alias deduplication), together with theorems checking
the library's specification against the embedded code.

The embedding follows the current generation of the sources (the one with
separate `ShortFlag`/`LongFlag` descriptor types, the duplicate-name
assertion in `FlagSet.parse`, and the alias-deduplicating usage printer).

External collaborators (the Go standard library's `strconv` and `time`
parsers and the option tokenizer) are modelled at the boundary: the
parsers are reimplemented following the host grammar, and the tokenizer
is an explicit parameter of `parse`.
-/

set_option autoImplicit false

/-- The kind carried by a Go `strconv.NumError` (`ErrSyntax` or `ErrRange`). -/
inductive NumErrKind where
  | invalid
  | range
deriving DecidableEq, Repr

/-- Errors produced by the embedded code.  `help` models the sentinel
`ErrHelp`; `numError fn num kind` models `*strconv.NumError`; the
`duration*` constructors model the `time.ParseDuration` error strings;
`tokenizer` stands for an error surfaced verbatim from the external
option-tokenizing collaborator. -/
inductive GoError where
  | help
  | numError (fn : String) (num : String) (kind : NumErrKind)
  | durationInvalid (orig : String)
  | durationMissingUnit (orig : String)
  | durationUnknownUnit (unit : String) (orig : String)
  | tokenizer (msg : String)
deriving DecidableEq, Repr

/-- Decimal digit test, `'0' <= c && c <= '9'` in the Go sources. -/
def isDecDigit (c : Char) : Bool :=
  '0' ≤ c ∧ c ≤ '9'

/-- Numeric value of a decimal digit string (fold as in `strconv`). -/
def decVal (cs : List Char) : Nat :=
  cs.foldl (fun acc c => acc * 10 + (c.toNat - 48)) 0

/-- Models `strconv.ParseBool`: accepts exactly the twelve literal forms. -/
def goParseBool (value : String) : Except GoError Bool :=
  if value = "1" ∨ value = "t" ∨ value = "T" ∨ value = "true" ∨ value = "TRUE" ∨ value = "True" then
    .ok true
  else if value = "0" ∨ value = "f" ∨ value = "F" ∨ value = "false" ∨ value = "FALSE" ∨ value = "False" then
    .ok false
  else
    .error (.numError "ParseBool" value .invalid)

/-- Models `strconv.ParseUint(value, 10, bitSize)`: unsigned decimal
digits, no sign, with a `2 ^ bitSize` range check.  (On a range error Go
also returns the clipped maximum together with the error; the library
under verification always discards that value, so we only model the
error.) -/
def goParseUint (value : String) (bitSize : Nat) : Except GoError Nat :=
  let cs := value.data
  if cs = [] ∨ ¬ cs.all isDecDigit then
    .error (.numError "ParseUint" value .invalid)
  else
    let n := decVal cs
    if n < 2 ^ bitSize then .ok n
    else .error (.numError "ParseUint" value .range)

/-- Models `strconv.ParseInt(value, 10, bitSize)`: optional sign, decimal
digits, range `[-2 ^ (bitSize - 1), 2 ^ (bitSize - 1))`. -/
def goParseInt (value : String) (bitSize : Nat) : Except GoError Int :=
  let cs := value.data
  let signDigits : Bool × List Char :=
    match cs with
    | '+' :: rest => (false, rest)
    | '-' :: rest => (true, rest)
    | rest => (false, rest)
  let neg := signDigits.1
  let digits := signDigits.2
  if digits = [] ∨ ¬ digits.all isDecDigit then
    .error (.numError "ParseInt" value .invalid)
  else
    let n : Int := if neg then -(decVal digits : Int) else (decVal digits : Int)
    if -(2 ^ (bitSize - 1) : Int) ≤ n ∧ n < (2 ^ (bitSize - 1) : Int) then .ok n
    else .error (.numError "ParseInt" value .range)

/-- A parsed floating-point payload.  The finite case carries the exact
rational value of the literal; rounding to binary64 is an external
concern no verified property depends on. -/
inductive GoFloat where
  | finite (q : ℚ)
  | inf (neg : Bool)
  | nan
deriving DecidableEq, Repr

/-- Hexadecimal digit test. -/
def isHexDigit (c : Char) : Bool :=
  ('0' ≤ c ∧ c ≤ '9') ∨ ('a' ≤ c ∧ c ≤ 'f') ∨ ('A' ≤ c ∧ c ≤ 'F')

/-- Numeric value of a hexadecimal digit string. -/
def hexVal (cs : List Char) : Nat :=
  cs.foldl (fun acc c =>
    acc * 16 +
      (if '0' ≤ c ∧ c ≤ '9' then c.toNat - 48
       else if 'a' ≤ c ∧ c ≤ 'f' then c.toNat - 87
       else c.toNat - 55)) 0

/-- Shared exponent handling for `goParseFloat`: the remaining characters
must be an optionally signed non-empty digit string, scaling the mantissa
by `base ^ exponent`. -/
def floatApplyExp (mant : ℚ) (base : ℚ) (rest : List Char) : Option ℚ :=
  let signDigits : Bool × List Char :=
    match rest with
    | '+' :: r => (false, r)
    | '-' :: r => (true, r)
    | r => (false, r)
  let eneg := signDigits.1
  let digits := signDigits.2
  if digits = [] ∨ ¬ digits.all isDecDigit then none
  else
    let ev := decVal digits
    some (if eneg then mant / base ^ ev else mant * base ^ ev)

/-- Decimal mantissa with optional fraction and optional `e`/`E` exponent
(the non-hexadecimal arm of the `strconv.ParseFloat` grammar; underscore
digit separators are conservatively rejected by this model). -/
def parseDecFloat (cs : List Char) : Option ℚ :=
  let intPart := cs.takeWhile isDecDigit
  let rest1 := cs.dropWhile isDecDigit
  let parts : Option (ℚ × List Char) :=
    match rest1 with
    | '.' :: r =>
      let fracPart := r.takeWhile isDecDigit
      let rest2 := r.dropWhile isDecDigit
      if intPart = [] ∧ fracPart = [] then none
      else some ((decVal intPart : ℚ) + (decVal fracPart : ℚ) / (10 : ℚ) ^ fracPart.length, rest2)
    | _ =>
      if intPart = [] then none else some ((decVal intPart : ℚ), rest1)
  match parts with
  | none => none
  | some (mant, rest) =>
    match rest with
    | [] => some mant
    | e :: r => if e = 'e' ∨ e = 'E' then floatApplyExp mant 10 r else none

/-- Hexadecimal mantissa (after the `0x` marker) with mandatory `p`/`P`
binary exponent, as in the `strconv.ParseFloat` grammar. -/
def parseHexFloat (cs : List Char) : Option ℚ :=
  let intPart := cs.takeWhile isHexDigit
  let rest1 := cs.dropWhile isHexDigit
  let parts : Option (ℚ × List Char) :=
    match rest1 with
    | '.' :: r =>
      let fracPart := r.takeWhile isHexDigit
      let rest2 := r.dropWhile isHexDigit
      if intPart = [] ∧ fracPart = [] then none
      else some ((hexVal intPart : ℚ) + (hexVal fracPart : ℚ) / (16 : ℚ) ^ fracPart.length, rest2)
    | _ =>
      if intPart = [] then none else some ((hexVal intPart : ℚ), rest1)
  match parts with
  | none => none
  | some (mant, rest) =>
    match rest with
    | p :: r => if p = 'p' ∨ p = 'P' then floatApplyExp mant 2 r else none
    | [] => none

/-- Models `strconv.ParseFloat(value, 64)`: optional sign, then either a
special (`inf`, `infinity`, or unsigned `nan`, case-insensitively) or a
decimal/hexadecimal mantissa with exponent.  The binary64 range check is
not modelled (it only moves inputs between the accept and reject sets;
no property proved below depends on that split). -/
def goParseFloat (value : String) : Except GoError GoFloat :=
  let cs := value.data
  if cs.map Char.toLower = "nan".data then .ok .nan
  else
    let signRest : Bool × List Char :=
      match cs with
      | '+' :: r => (false, r)
      | '-' :: r => (true, r)
      | r => (false, r)
    let neg := signRest.1
    let rest := signRest.2
    let low := rest.map Char.toLower
    if low = "inf".data ∨ low = "infinity".data then .ok (.inf neg)
    else
      let body : Option ℚ :=
        match rest with
        | '0' :: x :: r => if x = 'x' ∨ x = 'X' then parseHexFloat r else parseDecFloat rest
        | _ => parseDecFloat rest
      match body with
      | none => .error (.numError "ParseFloat" value .invalid)
      | some q => .ok (.finite (if neg then -q else q))

/-- `1<<63 - 1`, the largest Go `int64`. -/
def maxInt64 : Int := 9223372036854775807

/-- Models `leadingInt` from `time.ParseDuration`: consume leading decimal
digits into `x`, signalling `int64` overflow with `none`. -/
def leadingInt (cs : List Char) (x : Int) : Option (Int × List Char) :=
  match cs with
  | [] => some (x, [])
  | c :: rest =>
    if isDecDigit c then
      if x > maxInt64 / 10 then none
      else
        let y := x * 10 + ((c.toNat : Int) - 48)
        if y > maxInt64 then none else leadingInt rest y
    else some (x, c :: rest)

/-- Models `leadingFraction` from `time.ParseDuration`: consume leading
decimal digits into `x` scaling `scale` by ten per digit, silently
stopping the accumulation (but not the consumption) on overflow. -/
def leadingFraction (cs : List Char) (x : Int) (scale : ℚ) (overflow : Bool) :
    Int × ℚ × List Char :=
  match cs with
  | [] => (x, scale, [])
  | c :: rest =>
    if isDecDigit c then
      if overflow then leadingFraction rest x scale true
      else if x > maxInt64 / 10 then leadingFraction rest x scale true
      else
        let y := x * 10 + ((c.toNat : Int) - 48)
        if y > maxInt64 then leadingFraction rest x scale true
        else leadingFraction rest y (scale * 10) false
    else (x, scale, c :: rest)

/-- The `unitMap` of `time.ParseDuration` (nanoseconds per unit). -/
def durationUnit? : List Char → Option Nat
  | ['n', 's'] => some 1
  | ['u', 's'] => some 1000
  | ['µ', 's'] => some 1000
  | ['μ', 's'] => some 1000
  | ['m', 's'] => some 1000000
  | ['s'] => some 1000000000
  | ['m'] => some 60000000000
  | ['h'] => some 3600000000000
  | _ => none

/-- One `number [fraction] unit` round of `time.ParseDuration`, iterated
until the input is exhausted.  `fuel` is a structural-termination device:
it starts above the character count and every round consumes at least one
character, so the `0` branch is unreachable.  The fractional contribution
is computed exactly over `ℚ` and floored, mirroring
`int64(float64(f) * (float64(unit) / scale))` for in-range values. -/
def parseDurationLoop (orig : String) (fuel : Nat) (cs : List Char) (d : Int) :
    Except GoError Int :=
  match fuel with
  | 0 => .error (.durationInvalid orig)
  | fuel + 1 =>
    match cs with
    | [] => .ok d
    | c :: _ =>
      if ¬ (c = '.' ∨ isDecDigit c) then .error (.durationInvalid orig)
      else
        match leadingInt cs 0 with
        | none => .error (.durationInvalid orig)
        | some (v, rest1) =>
          let pre : Bool := rest1.length ≠ cs.length
          let fracOut : Int × ℚ × List Char × Bool :=
            match rest1 with
            | '.' :: r =>
              let out := leadingFraction r 0 1 false
              (out.1, out.2.1, out.2.2, decide (out.2.2.length ≠ r.length))
            | _ => (0, 1, rest1, false)
          let f := fracOut.1
          let scale := fracOut.2.1
          let rest2 := fracOut.2.2.1
          let post := fracOut.2.2.2
          if ¬ pre ∧ ¬ post then .error (.durationInvalid orig)
          else
            let notNum : Char → Bool := fun ch => ¬ (ch = '.' ∨ isDecDigit ch)
            let unitChars := rest2.takeWhile notNum
            let rest3 := rest2.dropWhile notNum
            if unitChars = [] then .error (.durationMissingUnit orig)
            else
              match durationUnit? unitChars with
              | none => .error (.durationUnknownUnit (String.mk unitChars) orig)
              | some unit =>
                if v > maxInt64 / (unit : Int) then .error (.durationInvalid orig)
                else
                  let v1 := v * (unit : Int)
                  let v2 :=
                    if f > 0 then v1 + Int.floor ((f : ℚ) * ((unit : ℚ) / scale)) else v1
                  if f > 0 ∧ v2 > maxInt64 then .error (.durationInvalid orig)
                  else
                    let d1 := d + v2
                    if d1 > maxInt64 then .error (.durationInvalid orig)
                    else parseDurationLoop orig fuel rest3 d1

/-- Models `time.ParseDuration`: optional sign, the special `"0"`, then
one or more `number [fraction] unit` components; the result is a count of
nanoseconds (Go's `time.Duration`). -/
def goParseDuration (value : String) : Except GoError Int :=
  let cs := value.data
  let signRest : Bool × List Char :=
    match cs with
    | '-' :: r => (true, r)
    | '+' :: r => (false, r)
    | r => (false, r)
  let neg := signRest.1
  let rest := signRest.2
  if rest = ['0'] then .ok 0
  else if rest = [] then .error (.durationInvalid value)
  else
    match parseDurationLoop value (rest.length + 1) rest 0 with
    | .error e => .error e
    | .ok d => .ok (if neg then -d else d)

/-! ## The typed-value family (`value.go`)

Each `ValueX.Set` mirrors the Go method `func (v ValueX) Set(value string)
error`: the raw string is parsed first and the bound variable is assigned
only when parsing succeeded.  The Go receiver holds a pointer to the
bound variable; here the current content is an explicit argument and the
post-call content is returned alongside the error, so `(r.1, r.2)` are
(the returned error, the content of the bound variable after the call).
-/

/-- `ValueAutoHelp.Set`: the help sentinel parses any boolean-compatible
token (empty meaning `"true"`) and stores nothing. -/
def ValueAutoHelp.Set (value : String) : Option GoError :=
  let value := if value = "" then "true" else value
  match goParseBool value with
  | .error e => some e
  | .ok _ => none

/-- `ValueBool.Set`. -/
def ValueBool.Set (cur : Bool) (value : String) : Option GoError × Bool :=
  let value := if value = "" then "true" else value
  match goParseBool value with
  | .error e => (some e, cur)
  | .ok parsed => (none, parsed)

/-- `ValueDuration.Set`. -/
def ValueDuration.Set (cur : Int) (value : String) : Option GoError × Int :=
  match goParseDuration value with
  | .error e => (some e, cur)
  | .ok parsed => (none, parsed)

/-- `ValueFloat64.Set`. -/
def ValueFloat64.Set (cur : GoFloat) (value : String) : Option GoError × GoFloat :=
  match goParseFloat value with
  | .error e => (some e, cur)
  | .ok parsed => (none, parsed)

/-- `ValueInt.Set` (`strconv.IntSize` is 64 on the host). -/
def ValueInt.Set (cur : Int) (value : String) : Option GoError × Int :=
  match goParseInt value 64 with
  | .error e => (some e, cur)
  | .ok parsed => (none, parsed)

/-- `ValueInt8.Set`. -/
def ValueInt8.Set (cur : Int) (value : String) : Option GoError × Int :=
  match goParseInt value 8 with
  | .error e => (some e, cur)
  | .ok parsed => (none, parsed)

/-- `ValueInt16.Set`. -/
def ValueInt16.Set (cur : Int) (value : String) : Option GoError × Int :=
  match goParseInt value 16 with
  | .error e => (some e, cur)
  | .ok parsed => (none, parsed)

/-- `ValueInt32.Set`. -/
def ValueInt32.Set (cur : Int) (value : String) : Option GoError × Int :=
  match goParseInt value 32 with
  | .error e => (some e, cur)
  | .ok parsed => (none, parsed)

/-- `ValueInt64.Set`. -/
def ValueInt64.Set (cur : Int) (value : String) : Option GoError × Int :=
  match goParseInt value 64 with
  | .error e => (some e, cur)
  | .ok parsed => (none, parsed)

/-- `ValueString.Set`: stores the raw string verbatim, never fails. -/
def ValueString.Set (cur : String) (value : String) : Option GoError × String :=
  (none, value)

/-- `ValueStringSlice.Set`: appends to the slice, never fails. -/
def ValueStringSlice.Set (cur : List String) (value : String) :
    Option GoError × List String :=
  (none, cur ++ [value])

/-- `ValueUint.Set` (`strconv.IntSize` is 64 on the host). -/
def ValueUint.Set (cur : Nat) (value : String) : Option GoError × Nat :=
  match goParseUint value 64 with
  | .error e => (some e, cur)
  | .ok parsed => (none, parsed)

/-- `ValueUint8.Set`. -/
def ValueUint8.Set (cur : Nat) (value : String) : Option GoError × Nat :=
  match goParseUint value 8 with
  | .error e => (some e, cur)
  | .ok parsed => (none, parsed)

/-- `ValueUint16.Set`. -/
def ValueUint16.Set (cur : Nat) (value : String) : Option GoError × Nat :=
  match goParseUint value 16 with
  | .error e => (some e, cur)
  | .ok parsed => (none, parsed)

/-- `ValueUint32.Set`. -/
def ValueUint32.Set (cur : Nat) (value : String) : Option GoError × Nat :=
  match goParseUint value 32 with
  | .error e => (some e, cur)
  | .ok parsed => (none, parsed)

/-- `ValueUInt64.Set`. -/
def ValueUInt64.Set (cur : Nat) (value : String) : Option GoError × Nat :=
  match goParseUint value 64 with
  | .error e => (some e, cur)
  | .ok parsed => (none, parsed)

/-- The content of one bound variable together with the concrete `Value`
implementation watching it; `GoValue.set` dispatches to the matching
`ValueX.Set`.  This is the store-cell type used by the dispatch walk. -/
inductive GoValue where
  | bool (b : Bool)
  | int (n : Int)
  | int8 (n : Int)
  | int16 (n : Int)
  | int32 (n : Int)
  | int64 (n : Int)
  | uint (n : Nat)
  | uint8 (n : Nat)
  | uint16 (n : Nat)
  | uint32 (n : Nat)
  | uint64 (n : Nat)
  | float64 (x : GoFloat)
  | duration (n : Int)
  | str (s : String)
  | strSlice (xs : List String)
  | autoHelp
deriving DecidableEq, Repr

/-- `Value.Set` dispatched over the concrete implementations. -/
def GoValue.set (g : GoValue) (value : String) : Option GoError × GoValue :=
  match g with
  | .bool b => let r := ValueBool.Set b value; (r.1, .bool r.2)
  | .int n => let r := ValueInt.Set n value; (r.1, .int r.2)
  | .int8 n => let r := ValueInt8.Set n value; (r.1, .int8 r.2)
  | .int16 n => let r := ValueInt16.Set n value; (r.1, .int16 r.2)
  | .int32 n => let r := ValueInt32.Set n value; (r.1, .int32 r.2)
  | .int64 n => let r := ValueInt64.Set n value; (r.1, .int64 r.2)
  | .uint n => let r := ValueUint.Set n value; (r.1, .uint r.2)
  | .uint8 n => let r := ValueUint8.Set n value; (r.1, .uint8 r.2)
  | .uint16 n => let r := ValueUint16.Set n value; (r.1, .uint16 r.2)
  | .uint32 n => let r := ValueUint32.Set n value; (r.1, .uint32 r.2)
  | .uint64 n => let r := ValueUInt64.Set n value; (r.1, .uint64 r.2)
  | .float64 x => let r := ValueFloat64.Set x value; (r.1, .float64 r.2)
  | .duration n => let r := ValueDuration.Set n value; (r.1, .duration r.2)
  | .str s => let r := ValueString.Set s value; (r.1, .str r.2)
  | .strSlice xs => let r := ValueStringSlice.Set xs value; (r.1, .strSlice r.2)
  | .autoHelp => (ValueAutoHelp.Set value, .autoHelp)

/-! ## Strong exception safety of `Set` (shared helper lemmas) -/

/-- Error-preservation for `ValueBool.Set`. -/
theorem valueBool_set_preserve (cur : Bool) (value : String) (e : GoError)
    (h : (ValueBool.Set cur value).1 = some e) : (ValueBool.Set cur value).2 = cur :=
  by
  unfold ValueBool.Set at h ⊢
  rcases hp : goParseBool (if value = "" then "true" else value) with er | v <;> simp [hp] at h ⊢

/-- Error-preservation for `ValueInt.Set`. -/
theorem valueInt_set_preserve (cur : Int) (value : String) (e : GoError)
    (h : (ValueInt.Set cur value).1 = some e) : (ValueInt.Set cur value).2 = cur :=
  by
  unfold ValueInt.Set at h ⊢
  rcases hp : goParseInt value 64 with er | v <;> simp [hp] at h ⊢

/-- Error-preservation for `ValueInt8.Set`. -/
theorem valueInt8_set_preserve (cur : Int) (value : String) (e : GoError)
    (h : (ValueInt8.Set cur value).1 = some e) : (ValueInt8.Set cur value).2 = cur :=
  by
  unfold ValueInt8.Set at h ⊢
  rcases hp : goParseInt value 8 with er | v <;> simp [hp] at h ⊢

/-- Error-preservation for `ValueInt16.Set`. -/
theorem valueInt16_set_preserve (cur : Int) (value : String) (e : GoError)
    (h : (ValueInt16.Set cur value).1 = some e) : (ValueInt16.Set cur value).2 = cur :=
  by
  unfold ValueInt16.Set at h ⊢
  rcases hp : goParseInt value 16 with er | v <;> simp [hp] at h ⊢

/-- Error-preservation for `ValueInt32.Set`. -/
theorem valueInt32_set_preserve (cur : Int) (value : String) (e : GoError)
    (h : (ValueInt32.Set cur value).1 = some e) : (ValueInt32.Set cur value).2 = cur :=
  by
  unfold ValueInt32.Set at h ⊢
  rcases hp : goParseInt value 32 with er | v <;> simp [hp] at h ⊢

/-- Error-preservation for `ValueInt64.Set`. -/
theorem valueInt64_set_preserve (cur : Int) (value : String) (e : GoError)
    (h : (ValueInt64.Set cur value).1 = some e) : (ValueInt64.Set cur value).2 = cur :=
  by
  unfold ValueInt64.Set at h ⊢
  rcases hp : goParseInt value 64 with er | v <;> simp [hp] at h ⊢

/-- Error-preservation for `ValueUint.Set`. -/
theorem valueUint_set_preserve (cur : Nat) (value : String) (e : GoError)
    (h : (ValueUint.Set cur value).1 = some e) : (ValueUint.Set cur value).2 = cur :=
  by
  unfold ValueUint.Set at h ⊢
  rcases hp : goParseUint value 64 with er | v <;> simp [hp] at h ⊢

/-- Error-preservation for `ValueUint8.Set`. -/
theorem valueUint8_set_preserve (cur : Nat) (value : String) (e : GoError)
    (h : (ValueUint8.Set cur value).1 = some e) : (ValueUint8.Set cur value).2 = cur :=
  by
  unfold ValueUint8.Set at h ⊢
  rcases hp : goParseUint value 8 with er | v <;> simp [hp] at h ⊢

/-- Error-preservation for `ValueUint16.Set`. -/
theorem valueUint16_set_preserve (cur : Nat) (value : String) (e : GoError)
    (h : (ValueUint16.Set cur value).1 = some e) : (ValueUint16.Set cur value).2 = cur :=
  by
  unfold ValueUint16.Set at h ⊢
  rcases hp : goParseUint value 16 with er | v <;> simp [hp] at h ⊢

/-- Error-preservation for `ValueUint32.Set`. -/
theorem valueUint32_set_preserve (cur : Nat) (value : String) (e : GoError)
    (h : (ValueUint32.Set cur value).1 = some e) : (ValueUint32.Set cur value).2 = cur :=
  by
  unfold ValueUint32.Set at h ⊢
  rcases hp : goParseUint value 32 with er | v <;> simp [hp] at h ⊢

/-- Error-preservation for `ValueUInt64.Set`. -/
theorem valueUInt64_set_preserve (cur : Nat) (value : String) (e : GoError)
    (h : (ValueUInt64.Set cur value).1 = some e) : (ValueUInt64.Set cur value).2 = cur :=
  by
  unfold ValueUInt64.Set at h ⊢
  rcases hp : goParseUint value 64 with er | v <;> simp [hp] at h ⊢

/-- Error-preservation for `ValueFloat64.Set`. -/
theorem valueFloat64_set_preserve (cur : GoFloat) (value : String) (e : GoError)
    (h : (ValueFloat64.Set cur value).1 = some e) : (ValueFloat64.Set cur value).2 = cur :=
  by
  unfold ValueFloat64.Set at h ⊢
  rcases hp : goParseFloat value with er | v <;> simp [hp] at h ⊢

/-- Error-preservation for `ValueDuration.Set`. -/
theorem valueDuration_set_preserve (cur : Int) (value : String) (e : GoError)
    (h : (ValueDuration.Set cur value).1 = some e) : (ValueDuration.Set cur value).2 = cur :=
  by
  unfold ValueDuration.Set at h ⊢
  rcases hp : goParseDuration value with er | v <;> simp [hp] at h ⊢

/-- `ValueString.Set` never fails, so error-preservation is vacuous. -/
theorem valueString_set_preserve (cur : String) (value : String) (e : GoError)
    (h : (ValueString.Set cur value).1 = some e) : (ValueString.Set cur value).2 = cur := by
  simp [ValueString.Set] at h

/-- `ValueStringSlice.Set` never fails, so error-preservation is vacuous. -/
theorem valueStringSlice_set_preserve (cur : List String) (value : String) (e : GoError)
    (h : (ValueStringSlice.Set cur value).1 = some e) :
    (ValueStringSlice.Set cur value).2 = cur := by
  simp [ValueStringSlice.Set] at h

/-- Error-preservation lifted to the dispatched `GoValue.set`. -/
theorem goValue_set_preserve (g : GoValue) (value : String) (e : GoError)
    (h : (GoValue.set g value).1 = some e) : (GoValue.set g value).2 = g := by
  cases g with
  | bool b =>
      simpa [GoValue.set] using congrArg GoValue.bool
        (valueBool_set_preserve b value e (by simpa [GoValue.set] using h))
  | int n =>
      simpa [GoValue.set] using congrArg GoValue.int
        (valueInt_set_preserve n value e (by simpa [GoValue.set] using h))
  | int8 n =>
      simpa [GoValue.set] using congrArg GoValue.int8
        (valueInt8_set_preserve n value e (by simpa [GoValue.set] using h))
  | int16 n =>
      simpa [GoValue.set] using congrArg GoValue.int16
        (valueInt16_set_preserve n value e (by simpa [GoValue.set] using h))
  | int32 n =>
      simpa [GoValue.set] using congrArg GoValue.int32
        (valueInt32_set_preserve n value e (by simpa [GoValue.set] using h))
  | int64 n =>
      simpa [GoValue.set] using congrArg GoValue.int64
        (valueInt64_set_preserve n value e (by simpa [GoValue.set] using h))
  | uint n =>
      simpa [GoValue.set] using congrArg GoValue.uint
        (valueUint_set_preserve n value e (by simpa [GoValue.set] using h))
  | uint8 n =>
      simpa [GoValue.set] using congrArg GoValue.uint8
        (valueUint8_set_preserve n value e (by simpa [GoValue.set] using h))
  | uint16 n =>
      simpa [GoValue.set] using congrArg GoValue.uint16
        (valueUint16_set_preserve n value e (by simpa [GoValue.set] using h))
  | uint32 n =>
      simpa [GoValue.set] using congrArg GoValue.uint32
        (valueUint32_set_preserve n value e (by simpa [GoValue.set] using h))
  | uint64 n =>
      simpa [GoValue.set] using congrArg GoValue.uint64
        (valueUInt64_set_preserve n value e (by simpa [GoValue.set] using h))
  | float64 x =>
      simpa [GoValue.set] using congrArg GoValue.float64
        (valueFloat64_set_preserve x value e (by simpa [GoValue.set] using h))
  | duration n =>
      simpa [GoValue.set] using congrArg GoValue.duration
        (valueDuration_set_preserve n value e (by simpa [GoValue.set] using h))
  | str s =>
      simp [GoValue.set, ValueString.Set] at h
  | strSlice xs =>
      simp [GoValue.set, ValueStringSlice.Set] at h
  | autoHelp => rfl

/-- C1: for every concrete typed value (bool, every signed and unsigned
integer width, float64, duration, string, string list, help sentinel) and
every current state of the bound variable, if `Set(raw)` returns an error
then the bound variable is left byte-for-byte unchanged by the call.  The
first conjunct states it uniformly over all value kinds (`GoValue.set`
covers the help sentinel, whose `Set` owns no variable); the remaining
conjuncts state it independently for each concrete implementation. -/
theorem C1_set_error_leaves_bound_variable_unchanged :
    (∀ (g : GoValue) (value : String) (e : GoError),
      (GoValue.set g value).1 = some e → (GoValue.set g value).2 = g) ∧
    (∀ cur value e, (ValueBool.Set cur value).1 = some e → (ValueBool.Set cur value).2 = cur) ∧
    (∀ cur value e, (ValueInt.Set cur value).1 = some e → (ValueInt.Set cur value).2 = cur) ∧
    (∀ cur value e, (ValueInt8.Set cur value).1 = some e → (ValueInt8.Set cur value).2 = cur) ∧
    (∀ cur value e, (ValueInt16.Set cur value).1 = some e → (ValueInt16.Set cur value).2 = cur) ∧
    (∀ cur value e, (ValueInt32.Set cur value).1 = some e → (ValueInt32.Set cur value).2 = cur) ∧
    (∀ cur value e, (ValueInt64.Set cur value).1 = some e → (ValueInt64.Set cur value).2 = cur) ∧
    (∀ cur value e, (ValueUint.Set cur value).1 = some e → (ValueUint.Set cur value).2 = cur) ∧
    (∀ cur value e, (ValueUint8.Set cur value).1 = some e → (ValueUint8.Set cur value).2 = cur) ∧
    (∀ cur value e, (ValueUint16.Set cur value).1 = some e → (ValueUint16.Set cur value).2 = cur) ∧
    (∀ cur value e, (ValueUint32.Set cur value).1 = some e → (ValueUint32.Set cur value).2 = cur) ∧
    (∀ cur value e, (ValueUInt64.Set cur value).1 = some e → (ValueUInt64.Set cur value).2 = cur) ∧
    (∀ cur value e, (ValueFloat64.Set cur value).1 = some e → (ValueFloat64.Set cur value).2 = cur) ∧
    (∀ cur value e, (ValueDuration.Set cur value).1 = some e → (ValueDuration.Set cur value).2 = cur) ∧
    (∀ cur value e, (ValueString.Set cur value).1 = some e → (ValueString.Set cur value).2 = cur) ∧
    (∀ cur value e, (ValueStringSlice.Set cur value).1 = some e →
      (ValueStringSlice.Set cur value).2 = cur) :=
  ⟨goValue_set_preserve, valueBool_set_preserve, valueInt_set_preserve,
   valueInt8_set_preserve, valueInt16_set_preserve, valueInt32_set_preserve,
   valueInt64_set_preserve, valueUint_set_preserve, valueUint8_set_preserve,
   valueUint16_set_preserve, valueUint32_set_preserve, valueUInt64_set_preserve,
   valueFloat64_set_preserve, valueDuration_set_preserve, valueString_set_preserve,
   valueStringSlice_set_preserve⟩

/-- Witness for C1: a boolean currently `true` keeps its value across the
failing `Set("nope")` (a syntax error), and a `uint8` currently `7` keeps
its value across the failing `Set("256")` (a range error). -/
theorem C1_witness :
    (ValueBool.Set true "nope").2 = true ∧ (ValueUint8.Set 7 "256").2 = 7 :=
  ⟨C1_set_error_leaves_bound_variable_unchanged.2.1 true "nope"
      (.numError "ParseBool" "nope" .invalid) (by decide),
   C1_set_error_leaves_bound_variable_unchanged.2.2.2.2.2.2.2.2.1 7 "256"
      (.numError "ParseUint" "256" .range) (by decide)⟩

/-! ## Option specifications and flag descriptors -/

/-- The option types understood by the external tokenizing collaborator
(`flagparser.OptionType*`). -/
inductive FPOptionType where
  | earlyArgumentNone
  | groupableArgumentNone
  | groupableArgumentRequired
  | standaloneArgumentOptional
  | standaloneArgumentRequired
deriving DecidableEq, Repr

/-- `flagparser.Option` (the boundary type handed to the tokenizer).
`type` is Go's `Type` field. -/
structure FPOption where
  type : FPOptionType
  Prefix : String
  Name : String
  DefaultValue : String
deriving DecidableEq, Repr

/-- A fatal configuration fault: `runtimex.Assert` fired (a Go panic). -/
inductive Fatal where
  | assertFailed
deriving DecidableEq, Repr

/-- The translation strategy stored in `ShortFlag.MakeOption`.  The Go
source stores one of three function pointers; following the spec's
design note this is modelled as a closed tag dispatched by
`ShortFlag.MakeOptionRun`. -/
inductive ShortStrategy where
  | autoHelp
  | bool
  | withValue
deriving DecidableEq, Repr

/-- `ShortFlag`: a single-character flag descriptor.  `Name` is the Go
`byte`; `Value` is the index of the bound cell in the ambient store (the
Go field holds a pointer to the shared `Value`). -/
structure ShortFlag where
  Description : List String
  ArgumentName : String
  MakeOption : ShortStrategy
  Name : Nat
  Prefix : String
  Value : Nat
deriving DecidableEq, Repr

/-- `ShortFlagMakeOptionAutoHelp`: asserts, then builds an early
no-argument option. -/
def ShortFlagMakeOptionAutoHelp (fx : ShortFlag) : Except Fatal FPOption :=
  if ¬ (fx.Prefix ≠ "" ∧ fx.Name ≠ 0) then .error .assertFailed
  else .ok ⟨.earlyArgumentNone, fx.Prefix, Char.toString (Char.ofNat fx.Name), ""⟩

/-- `ShortFlagMakeOptionBool`: asserts, then builds a groupable
no-argument option. -/
def ShortFlagMakeOptionBool (fx : ShortFlag) : Except Fatal FPOption :=
  if ¬ (fx.Prefix ≠ "" ∧ fx.Name ≠ 0) then .error .assertFailed
  else .ok ⟨.groupableArgumentNone, fx.Prefix, Char.toString (Char.ofNat fx.Name), ""⟩

/-- `ShortFlagMakeOptionWithValue`: asserts, then builds a groupable
required-argument option. -/
def ShortFlagMakeOptionWithValue (fx : ShortFlag) : Except Fatal FPOption :=
  if ¬ (fx.Prefix ≠ "" ∧ fx.Name ≠ 0) then .error .assertFailed
  else .ok ⟨.groupableArgumentRequired, fx.Prefix, Char.toString (Char.ofNat fx.Name), ""⟩

/-- Runs the stored `MakeOption` strategy of a `ShortFlag`. -/
def ShortFlag.MakeOptionRun (fx : ShortFlag) : Except Fatal FPOption :=
  match fx.MakeOption with
  | .autoHelp => ShortFlagMakeOptionAutoHelp fx
  | .bool => ShortFlagMakeOptionBool fx
  | .withValue => ShortFlagMakeOptionWithValue fx

/-- The translation strategy stored in `LongFlag.MakeOption`. -/
inductive LongStrategy where
  | autoHelp
  | bool
  | withRequiredValue
  | withOptionalValue
deriving DecidableEq, Repr

/-- `LongFlag`: a multi-character flag descriptor.  `Value` is the index
of the bound cell in the ambient store. -/
structure LongFlag where
  Description : List String
  ArgumentName : String
  DefaultValue : String
  MakeOption : LongStrategy
  Name : String
  Prefix : String
  Value : Nat
deriving DecidableEq, Repr

/-- `LongFlagMakeOptionAutoHelp`: asserts, then builds an early
no-argument option. -/
def LongFlagMakeOptionAutoHelp (fx : LongFlag) : Except Fatal FPOption :=
  if ¬ (fx.Prefix ≠ "" ∧ fx.Name ≠ "") then .error .assertFailed
  else .ok ⟨.earlyArgumentNone, fx.Prefix, fx.Name, ""⟩

/-- `LongFlagMakeOptionBool`: asserts, then builds a standalone
optional-argument option whose default is the literal `"true"`. -/
def LongFlagMakeOptionBool (fx : LongFlag) : Except Fatal FPOption :=
  if ¬ (fx.Prefix ≠ "" ∧ fx.Name ≠ "") then .error .assertFailed
  else .ok ⟨.standaloneArgumentOptional, fx.Prefix, fx.Name, "true"⟩

/-- `LongFlagMakeOptionWithRequiredValue`: asserts, then builds a
standalone required-argument option. -/
def LongFlagMakeOptionWithRequiredValue (fx : LongFlag) : Except Fatal FPOption :=
  if ¬ (fx.Prefix ≠ "" ∧ fx.Name ≠ "") then .error .assertFailed
  else .ok ⟨.standaloneArgumentRequired, fx.Prefix, fx.Name, ""⟩

/-- `LongFlagMakeOptionWithOptionalValue`: asserts, then builds a
standalone optional-argument option carrying the captured default. -/
def LongFlagMakeOptionWithOptionalValue (fx : LongFlag) : Except Fatal FPOption :=
  if ¬ (fx.Prefix ≠ "" ∧ fx.Name ≠ "") then .error .assertFailed
  else .ok ⟨.standaloneArgumentOptional, fx.Prefix, fx.Name, fx.DefaultValue⟩

/-- Runs the stored `MakeOption` strategy of a `LongFlag`. -/
def LongFlag.MakeOptionRun (fx : LongFlag) : Except Fatal FPOption :=
  match fx.MakeOption with
  | .autoHelp => LongFlagMakeOptionAutoHelp fx
  | .bool => LongFlagMakeOptionBool fx
  | .withRequiredValue => LongFlagMakeOptionWithRequiredValue fx
  | .withOptionalValue => LongFlagMakeOptionWithOptionalValue fx

/-- The backquote character (escape-modelled to keep source plain). -/
def backquote : Char := Char.ofNat 96

/-- Character class of the regular expression used by
`argumentNameFromDocsOrDefault`: uppercase letters, digits, underscore,
hyphen. -/
def isTokenChar (c : Char) : Bool :=
  ('A' ≤ c ∧ c ≤ 'Z') ∨ ('0' ≤ c ∧ c ≤ '9') ∨ c = '_' ∨ c = '-'

/-- Leftmost match of the Go regular expression matching a non-empty
backquote-quoted run of `isTokenChar` characters, returning the captured
run.  Scanning each start position from the left with a maximal greedy
run is equivalent to the regexp's leftmost-match semantics, because the
character class excludes the backquote (shorter runs can never be
followed by a closing backquote). -/
def findBacktickToken (cs : List Char) : Option String :=
  match cs with
  | [] => none
  | c :: rest =>
    if c = backquote then
      let run := rest.takeWhile isTokenChar
      match rest.dropWhile isTokenChar with
      | c2 :: _ =>
        if c2 = backquote ∧ run ≠ [] then some (String.mk run)
        else findBacktickToken rest
      | [] => findBacktickToken rest
    else findBacktickToken rest

/-- Models `strings.HasPrefix` (kernel-computable). -/
def goHasPrefix (s pre : String) : Bool :=
  pre.data.isPrefixOf s.data

/-- `argumentNameFromDocsOrDefault`: the token extracted from the first
documentation paragraph replaces the default argument name (with one
leading space) when the default starts with a space. -/
def argumentNameFromDocsOrDefault (description : List String) (defaultValue : String) :
    String :=
  match description with
  | [] => defaultValue
  | d :: _ =>
    if goHasPrefix defaultValue " " then
      match findBacktickToken d.data with
      | some tok => " " ++ tok
      | none => defaultValue
    else defaultValue

/-- `ShortFlag.Usage`, e.g. `-v` or `-t TAG`. -/
def ShortFlag.Usage (fx : ShortFlag) : String :=
  fx.Prefix ++ Char.toString (Char.ofNat fx.Name) ++
    argumentNameFromDocsOrDefault fx.Description fx.ArgumentName

/-- `LongFlag.Usage`, e.g. `--verbose` or `--output FILE`. -/
def LongFlag.Usage (fx : LongFlag) : String :=
  fx.Prefix ++ fx.Name ++ argumentNameFromDocsOrDefault fx.Description fx.ArgumentName

/-- C6: when the default argument name begins with a leading space and
the first `Description` paragraph contains a backquote-quoted token of
uppercase letters, digits, underscores or hyphens, `Usage()` uses one
space followed by the extracted token in place of the default argument
name; when the default does not begin with a space, or no such token is
present (including an empty description), the default is used unchanged.
Stated for both `LongFlag.Usage` and `ShortFlag.Usage`, which share
`argumentNameFromDocsOrDefault`. -/
theorem C6_usage_argument_name_extraction :
    (∀ (fx : LongFlag) (d : String) (ds : List String) (tok : String),
      fx.Description = d :: ds → goHasPrefix fx.ArgumentName " " = true →
      findBacktickToken d.data = some tok →
      LongFlag.Usage fx = fx.Prefix ++ fx.Name ++ (" " ++ tok)) ∧
    (∀ (fx : LongFlag), goHasPrefix fx.ArgumentName " " = false →
      LongFlag.Usage fx = fx.Prefix ++ fx.Name ++ fx.ArgumentName) ∧
    (∀ (fx : LongFlag) (d : String) (ds : List String),
      fx.Description = d :: ds → findBacktickToken d.data = none →
      LongFlag.Usage fx = fx.Prefix ++ fx.Name ++ fx.ArgumentName) ∧
    (∀ (fx : LongFlag), fx.Description = [] →
      LongFlag.Usage fx = fx.Prefix ++ fx.Name ++ fx.ArgumentName) ∧
    (∀ (fx : ShortFlag) (d : String) (ds : List String) (tok : String),
      fx.Description = d :: ds → goHasPrefix fx.ArgumentName " " = true →
      findBacktickToken d.data = some tok →
      ShortFlag.Usage fx = fx.Prefix ++ Char.toString (Char.ofNat fx.Name) ++ (" " ++ tok)) ∧
    (∀ (fx : ShortFlag), goHasPrefix fx.ArgumentName " " = false →
      ShortFlag.Usage fx = fx.Prefix ++ Char.toString (Char.ofNat fx.Name) ++ fx.ArgumentName) ∧
    (∀ (fx : ShortFlag) (d : String) (ds : List String),
      fx.Description = d :: ds → findBacktickToken d.data = none →
      ShortFlag.Usage fx = fx.Prefix ++ Char.toString (Char.ofNat fx.Name) ++ fx.ArgumentName) ∧
    (∀ (fx : ShortFlag), fx.Description = [] →
      ShortFlag.Usage fx = fx.Prefix ++ Char.toString (Char.ofNat fx.Name) ++ fx.ArgumentName) := by
  refine ⟨?_, ?_, ?_, ?_, ?_, ?_, ?_, ?_⟩
  · intro fx d ds tok hdesc hsp htok
    simp [LongFlag.Usage, argumentNameFromDocsOrDefault, hdesc, hsp, htok]
  · intro fx hsp
    cases hdesc : fx.Description with
    | nil => simp [LongFlag.Usage, argumentNameFromDocsOrDefault, hdesc]
    | cons d ds => simp [LongFlag.Usage, argumentNameFromDocsOrDefault, hdesc, hsp]
  · intro fx d ds hdesc htok
    by_cases hsp : goHasPrefix fx.ArgumentName " " = true <;>
      simp [LongFlag.Usage, argumentNameFromDocsOrDefault, hdesc, hsp, htok]
  · intro fx hdesc
    simp [LongFlag.Usage, argumentNameFromDocsOrDefault, hdesc]
  · intro fx d ds tok hdesc hsp htok
    simp [ShortFlag.Usage, argumentNameFromDocsOrDefault, hdesc, hsp, htok]
  · intro fx hsp
    cases hdesc : fx.Description with
    | nil => simp [ShortFlag.Usage, argumentNameFromDocsOrDefault, hdesc]
    | cons d ds => simp [ShortFlag.Usage, argumentNameFromDocsOrDefault, hdesc, hsp]
  · intro fx d ds hdesc htok
    by_cases hsp : goHasPrefix fx.ArgumentName " " = true <;>
      simp [ShortFlag.Usage, argumentNameFromDocsOrDefault, hdesc, hsp, htok]
  · intro fx hdesc
    simp [ShortFlag.Usage, argumentNameFromDocsOrDefault, hdesc]

/-- Witness for C6: a long string flag documented with `FILE` renders as
`--output FILE`, overriding the default ` STRING`. -/
theorem C6_witness :
    LongFlag.Usage ⟨["Write to `FILE`."], " STRING", "", .withRequiredValue, "output", "--", 0⟩ =
      "--output FILE" :=
  C6_usage_argument_name_extraction.1
    ⟨["Write to `FILE`."], " STRING", "", .withRequiredValue, "output", "--", 0⟩
    "Write to `FILE`." [] "FILE" rfl (by decide) (by decide)

/-- C9: every descriptor-to-option translation function — all short
strategies (auto-help, boolean, required value) and all long strategies
(auto-help, boolean, required value, optional value) — asserts that the
descriptor's `Prefix` is non-empty and its `Name` is non-zero, raising a
fatal fault when either is empty, and otherwise produces an option
specification (never skips the descriptor and never yields a parse-time
error). -/
theorem C9_translation_functions_assert_wellformed_descriptor :
    (∀ (fx : ShortFlag), fx.Prefix = "" ∨ fx.Name = 0 →
      ShortFlag.MakeOptionRun fx = .error .assertFailed) ∧
    (∀ (fx : ShortFlag), fx.Prefix ≠ "" → fx.Name ≠ 0 →
      ∃ opt, ShortFlag.MakeOptionRun fx = .ok opt) ∧
    (∀ (fx : LongFlag), fx.Prefix = "" ∨ fx.Name = "" →
      LongFlag.MakeOptionRun fx = .error .assertFailed) ∧
    (∀ (fx : LongFlag), fx.Prefix ≠ "" → fx.Name ≠ "" →
      ∃ opt, LongFlag.MakeOptionRun fx = .ok opt) := by
  refine ⟨?_, ?_, ?_, ?_⟩
  · intro fx h
    have hc : ¬ (fx.Prefix ≠ "" ∧ fx.Name ≠ 0) := by
      rcases h with h | h <;> simp [h]
    cases hs : fx.MakeOption <;>
      simp [ShortFlag.MakeOptionRun, hs, ShortFlagMakeOptionAutoHelp,
        ShortFlagMakeOptionBool, ShortFlagMakeOptionWithValue, hc]
  · intro fx h1 h2
    cases hs : fx.MakeOption <;>
      simp [ShortFlag.MakeOptionRun, hs, ShortFlagMakeOptionAutoHelp,
        ShortFlagMakeOptionBool, ShortFlagMakeOptionWithValue, h1, h2]
  · intro fx h
    have hc : ¬ (fx.Prefix ≠ "" ∧ fx.Name ≠ "") := by
      rcases h with h | h <;> simp [h]
    cases hs : fx.MakeOption <;>
      simp [LongFlag.MakeOptionRun, hs, LongFlagMakeOptionAutoHelp,
        LongFlagMakeOptionBool, LongFlagMakeOptionWithRequiredValue,
        LongFlagMakeOptionWithOptionalValue, hc]
  · intro fx h1 h2
    cases hs : fx.MakeOption <;>
      simp [LongFlag.MakeOptionRun, hs, LongFlagMakeOptionAutoHelp,
        LongFlagMakeOptionBool, LongFlagMakeOptionWithRequiredValue,
        LongFlagMakeOptionWithOptionalValue, h1, h2]

/-- Witness for C9: a boolean short flag with an emptied prefix hits the
assertion, and the same flag with the default `-` prefix translates. -/
theorem C9_witness :
    ShortFlag.MakeOptionRun ⟨["Verbose."], "", .bool, 118, "", 0⟩ = .error .assertFailed ∧
    ∃ opt, ShortFlag.MakeOptionRun ⟨["Verbose."], "", .bool, 118, "-", 0⟩ = .ok opt :=
  ⟨C9_translation_functions_assert_wellformed_descriptor.1
      ⟨["Verbose."], "", .bool, 118, "", 0⟩ (Or.inl rfl),
   C9_translation_functions_assert_wellformed_descriptor.2.1
      ⟨["Verbose."], "", .bool, 118, "-", 0⟩ (by decide) (by decide)⟩

/-! ## The flag registry and the parse/dispatch algorithm -/

/-- Tagged results returned by the external tokenizer
(`flagparser.ValuePositionalArgument` and `flagparser.ValueOption`; for
an option result only the matched option's name and the raw value are
consumed by the dispatch walk). -/
inductive TokResult where
  | positionalArgument (value : String)
  | option (name : String) (value : String)
deriving DecidableEq, Repr

/-- The `ErrorHandling` policy constants. -/
inductive ErrorHandling where
  | continueOnError
  | exitOnError
  | panicOnError
deriving DecidableEq, Repr

/-- `FlagSet`: the registration-phase state consumed by `parse`.  Bound
values live in an ambient store of `GoValue` cells (descriptors refer to
cells by index, modelling the Go pointers); the injected exit callback,
the output streams and the usage printer are modelled as events in
`HandleOutcome` rather than as fields. -/
structure FlagSet where
  DisablePermute : Bool
  errorHandling : ErrorHandling
  LongFlags : List LongFlag
  MaxPositionalArgs : Int
  MinPositionalArgs : Int
  OptionsArgumentsSeparator : String
  ProgramName : String
  ShortFlags : List ShortFlag
  positionals : List String
deriving DecidableEq, Repr

/-- Exit tag of the dispatch walk over tokenizer results. -/
inductive WalkExit where
  | ok
  | err (e : GoError)
  | help
  | assertFailed
deriving DecidableEq, Repr

/-- Final state of the dispatch walk: exit tag, store, positional buffer. -/
structure DispatchOut where
  exit : WalkExit
  store : List GoValue
  positionals : List String
deriving DecidableEq, Repr

/-- The result-dispatch walk of `FlagSet.parse`: positional results are
appended to the buffer in input order; option results look up the bound
value by name in the parser view (`runtimex.Assert` fires on a miss),
call `Set` on it, return the first `Set` failure immediately, and return
the distinguished help signal right after a help-sentinel `Set`
succeeds. -/
def dispatchWalk (pview : List (String × Nat)) (store : List GoValue)
    (positionals : List String) : List TokResult → DispatchOut
  | [] => ⟨.ok, store, positionals⟩
  | .positionalArgument v :: rest =>
      dispatchWalk pview store (positionals ++ [v]) rest
  | .option n v :: rest =>
      match List.lookup n pview with
      | none => ⟨.assertFailed, store, positionals⟩
      | some idx =>
        match store[idx]? with
        | none => ⟨.assertFailed, store, positionals⟩
        | some cur =>
          match GoValue.set cur v with
          | (some e, _) => ⟨.err e, store, positionals⟩
          | (none, newVal) =>
            if cur = .autoHelp then ⟨.help, store.set idx newVal, positionals⟩
            else dispatchWalk pview (store.set idx newVal) positionals rest

/-- Accumulator of the descriptor-translation phase: the option list for
the tokenizer and the name-to-cell parser view (`pview`); an entry
prepended later shadows an earlier one under `List.lookup`, mirroring
overwriting insertion into the Go map. -/
structure BuildOut where
  options : List FPOption
  pview : List (String × Nat)
deriving DecidableEq, Repr

/-- Short-flag half of the translation phase of `FlagSet.parse`: each
short flag is translated and registered without any duplicate check. -/
def buildShortOptions (flags : List ShortFlag) (acc : BuildOut) : Except Fatal BuildOut :=
  match flags with
  | [] => .ok acc
  | fx :: rest =>
    match ShortFlag.MakeOptionRun fx with
    | .error f => .error f
    | .ok opt =>
        buildShortOptions rest ⟨acc.options ++ [opt], (opt.Name, fx.Value) :: acc.pview⟩

/-- Long-flag half of the translation phase of `FlagSet.parse`:
`runtimex.Assert(!found)` fires when a long flag's option name is already
present in the parser view. -/
def buildLongOptions (flags : List LongFlag) (acc : BuildOut) : Except Fatal BuildOut :=
  match flags with
  | [] => .ok acc
  | fx :: rest =>
    match LongFlag.MakeOptionRun fx with
    | .error f => .error f
    | .ok opt =>
      match List.lookup opt.Name acc.pview with
      | some _ => .error .assertFailed
      | none => buildLongOptions rest ⟨acc.options ++ [opt], (opt.Name, fx.Value) :: acc.pview⟩

/-- The full translation phase of `FlagSet.parse` (everything that runs
before the tokenizer is invoked): short flags first, then long flags. -/
def FlagSet.buildParserView (fs : FlagSet) : Except Fatal BuildOut :=
  match buildShortOptions fs.ShortFlags ⟨[], []⟩ with
  | .error f => .error f
  | .ok acc => buildLongOptions fs.LongFlags acc

/-- The configuration handed to the external tokenizer (the
`flagparser.Parser` fields set by `FlagSet.parse`). -/
structure TokenizerInput where
  DisablePermute : Bool
  MaxPositionalArguments : Int
  MinPositionalArguments : Int
  OptionsArgumentsSeparator : String
  Options : List FPOption

/-- The external tokenizing collaborator, a parameter of the embedding:
it receives the parser configuration and the raw argument vector and
returns an ordered result sequence or a syntax/bounds error. -/
abbrev Tokenizer := TokenizerInput → List String → Except GoError (List TokResult)

/-- Result of `FlagSet.parse`: the returned error (`ErrHelp` appears as
`some .help`, success as `none`), the final store, and the final
positional buffer. -/
structure ParseOut where
  err : Option GoError
  store : List GoValue
  positionals : List String
deriving DecidableEq, Repr

/-- `FlagSet.parse`: translate descriptors (fatal faults propagate before
any tokenizing), delegate to the tokenizer (errors surface verbatim),
then dispatch the result sequence. -/
def FlagSet.parse (tok : Tokenizer) (fs : FlagSet) (store : List GoValue)
    (args : List String) : Except Fatal ParseOut :=
  match fs.buildParserView with
  | .error f => .error f
  | .ok acc =>
    match tok ⟨fs.DisablePermute, fs.MaxPositionalArgs, fs.MinPositionalArgs,
               fs.OptionsArgumentsSeparator, acc.options⟩ args with
    | .error e => .ok ⟨some e, store, fs.positionals⟩
    | .ok results =>
      match dispatchWalk acc.pview store fs.positionals results with
      | ⟨.ok, st, pos⟩ => .ok ⟨none, st, pos⟩
      | ⟨.err e, st, pos⟩ => .ok ⟨some e, st, pos⟩
      | ⟨.help, st, pos⟩ => .ok ⟨some .help, st, pos⟩
      | ⟨.assertFailed, _, _⟩ => .error .assertFailed

/-- A rendering performed by the error-handling policy on one of the two
configured output streams. -/
inductive RenderEvent where
  | usageString
  | usageError (e : GoError)
deriving DecidableEq, Repr

/-- Observable outcome of `FlagSet.maybeHandleError`: the value returned
to the caller (`none` when the method does not return normally), the
renderings on the configured stdout and stderr streams, the statuses
passed to the injected exit callback, and the payload of the `panic`
statement (which in the exit cases is reached only when the exit
callback returns instead of terminating the process). -/
structure HandleOutcome where
  returned : Option (Option GoError)
  stdoutEvents : List RenderEvent
  stderrEvents : List RenderEvent
  exitCalls : List Nat
  panicked : Option GoError
deriving DecidableEq, Repr

/-- `FlagSet.maybeHandleError`: the error-handling policy state machine. -/
def FlagSet.maybeHandleError (fs : FlagSet) (err : Option GoError) : HandleOutcome :=
  match err with
  | none => ⟨some none, [], [], [], none⟩
  | some e =>
    match fs.errorHandling with
    | .continueOnError => ⟨some (some e), [], [], [], none⟩
    | .exitOnError =>
      if e = .help then ⟨none, [.usageString], [], [0], some e⟩
      else ⟨none, [], [.usageError e], [2], some e⟩
    | .panicOnError => ⟨none, [], [], [], some e⟩

/-- `FlagSet.Parse`: `maybeHandleError` applied to the outcome of
`parse` (fatal configuration faults propagate unhandled). -/
def FlagSet.Parse (tok : Tokenizer) (fs : FlagSet) (store : List GoValue)
    (args : List String) : Except Fatal (HandleOutcome × List GoValue × List String) :=
  match fs.parse tok store args with
  | .error f => .error f
  | .ok out => .ok (fs.maybeHandleError out.err, out.store, out.positionals)

/-- C2: `Parse` applies the error-handling policy terminally to the
outcome of translation, tokenizing and dispatch (last two conjuncts);
with `ContinueOnError` an error or help signal is returned unchanged;
with `ExitOnError` a help request renders the full usage on the
configured output stream and then invokes the exit callback with status
0, while any other failure renders the error on the configured error
stream and then invokes the exit callback with status 2 (in both cases
the trailing `panicked` field is the defensive fall-through executed only
when the exit callback returns); with `PanicOnError` the error is raised
as a panic. -/
theorem C2_error_handling_policy_state_machine :
    (∀ (fs : FlagSet), fs.maybeHandleError none = ⟨some none, [], [], [], none⟩) ∧
    (∀ (fs : FlagSet) (e : GoError), fs.errorHandling = .continueOnError →
      fs.maybeHandleError (some e) = ⟨some (some e), [], [], [], none⟩) ∧
    (∀ (fs : FlagSet), fs.errorHandling = .exitOnError →
      fs.maybeHandleError (some .help) = ⟨none, [.usageString], [], [0], some .help⟩) ∧
    (∀ (fs : FlagSet) (e : GoError), fs.errorHandling = .exitOnError → e ≠ .help →
      fs.maybeHandleError (some e) = ⟨none, [], [.usageError e], [2], some e⟩) ∧
    (∀ (fs : FlagSet) (e : GoError), fs.errorHandling = .panicOnError →
      fs.maybeHandleError (some e) = ⟨none, [], [], [], some e⟩) ∧
    (∀ (tok : Tokenizer) (fs : FlagSet) (store : List GoValue) (args : List String)
      (out : ParseOut), fs.parse tok store args = .ok out →
      FlagSet.Parse tok fs store args =
        .ok (fs.maybeHandleError out.err, out.store, out.positionals)) ∧
    (∀ (tok : Tokenizer) (fs : FlagSet) (store : List GoValue) (args : List String)
      (f : Fatal), fs.parse tok store args = .error f →
      FlagSet.Parse tok fs store args = .error f) := by
  refine ⟨?_, ?_, ?_, ?_, ?_, ?_, ?_⟩
  · intro fs; rfl
  · intro fs e h; simp [FlagSet.maybeHandleError, h]
  · intro fs h; simp [FlagSet.maybeHandleError, h]
  · intro fs e h hne; simp [FlagSet.maybeHandleError, h, hne]
  · intro fs e h; simp [FlagSet.maybeHandleError, h]
  · intro tok fs store args out h; simp [FlagSet.Parse, h]
  · intro tok fs store args f h; simp [FlagSet.Parse, h]

/-- Witness for C2: a concrete registry exercises the
continue-on-error and the two exit-on-error transitions. -/
theorem C2_witness :
    FlagSet.maybeHandleError ⟨false, .continueOnError, [], 0, 0, "--", "prog", [], []⟩
        (some (.tokenizer "unknown flag")) =
      ⟨some (some (.tokenizer "unknown flag")), [], [], [], none⟩ ∧
    FlagSet.maybeHandleError ⟨false, .exitOnError, [], 0, 0, "--", "prog", [], []⟩
        (some .help) = ⟨none, [.usageString], [], [0], some .help⟩ ∧
    FlagSet.maybeHandleError ⟨false, .exitOnError, [], 0, 0, "--", "prog", [], []⟩
        (some (.tokenizer "unknown flag")) =
      ⟨none, [], [.usageError (.tokenizer "unknown flag")], [2],
        some (.tokenizer "unknown flag")⟩ :=
  ⟨C2_error_handling_policy_state_machine.2.1
      ⟨false, .continueOnError, [], 0, 0, "--", "prog", [], []⟩
      (.tokenizer "unknown flag") rfl,
   C2_error_handling_policy_state_machine.2.2.1
      ⟨false, .exitOnError, [], 0, 0, "--", "prog", [], []⟩ rfl,
   C2_error_handling_policy_state_machine.2.2.2.1
      ⟨false, .exitOnError, [], 0, 0, "--", "prog", [], []⟩
      (.tokenizer "unknown flag") rfl (by decide)⟩

/-- Prefix composition for the dispatch walk: once a prefix of the result
sequence has been walked successfully, walking the full sequence
continues from the reached state. -/
theorem dispatchWalk_append (pview : List (String × Nat)) (rest : List TokResult) :
    ∀ (pre : List TokResult) (store : List GoValue) (pos : List String)
      (st1 : List GoValue) (pos1 : List String),
      dispatchWalk pview store pos pre = ⟨.ok, st1, pos1⟩ →
      dispatchWalk pview store pos (pre ++ rest) = dispatchWalk pview st1 pos1 rest := by
  intro pre
  induction pre with
  | nil =>
    intro store pos st1 pos1 h
    simp [dispatchWalk] at h
    rw [List.nil_append, h.1, h.2]
  | cons r rs ih =>
    intro store pos st1 pos1 h
    cases r with
    | positionalArgument v =>
      simp only [dispatchWalk, List.cons_append] at h ⊢
      exact ih _ _ _ _ h
    | option n v =>
      simp only [dispatchWalk, List.cons_append] at h ⊢
      cases hl : List.lookup n pview with
      | none => simp [hl] at h
      | some idx =>
        simp only [hl] at h ⊢
        cases hs : store[idx]? with
        | none => simp [hs] at h
        | some cur =>
          simp only [hs] at h ⊢
          rcases hset : GoValue.set cur v with ⟨e?, newVal⟩
          cases e? with
          | some e => simp [hset] at h
          | none =>
            simp only [hset] at h ⊢
            by_cases hah : cur = GoValue.autoHelp
            · simp [hah] at h
            · simp only [if_neg hah] at h ⊢
              exact ih _ _ _ _ h

/-- The value attached to a positional-argument result. -/
def tokPositional? (r : TokResult) : Option String :=
  match r with
  | .positionalArgument v => some v
  | .option _ _ => none

/-- C3: over every ordered result sequence returned by the tokenizer,
(1) a successful dispatch walk appends exactly the positional-argument
values to the buffer, preserving input order; (2) after a successfully
walked prefix, an option whose `Set` fails makes the walk return that
error immediately with the state reached after the prefix — assignments
and positionals already processed are kept, and no result after the
failing option is ever examined; (3) when instead `Set` succeeds on the
help sentinel, the walk stops immediately with the distinguished help
signal. -/
theorem C3_dispatch_walk_order_abort_and_help :
    (∀ (pview : List (String × Nat)) (store : List GoValue) (pos : List String)
      (results : List TokResult) (st1 : List GoValue) (pos1 : List String),
      dispatchWalk pview store pos results = ⟨.ok, st1, pos1⟩ →
      pos1 = pos ++ results.filterMap tokPositional?) ∧
    (∀ (pview : List (String × Nat)) (store : List GoValue) (pos : List String)
      (pre : List TokResult) (n v : String) (post : List TokResult)
      (st1 : List GoValue) (pos1 : List String) (idx : Nat) (cur : GoValue) (e : GoError),
      dispatchWalk pview store pos pre = ⟨.ok, st1, pos1⟩ →
      List.lookup n pview = some idx → st1[idx]? = some cur →
      (GoValue.set cur v).1 = some e →
      dispatchWalk pview store pos (pre ++ .option n v :: post) = ⟨.err e, st1, pos1⟩) ∧
    (∀ (pview : List (String × Nat)) (store : List GoValue) (pos : List String)
      (pre : List TokResult) (n v : String) (post : List TokResult)
      (st1 : List GoValue) (pos1 : List String) (idx : Nat) (cur : GoValue),
      dispatchWalk pview store pos pre = ⟨.ok, st1, pos1⟩ →
      List.lookup n pview = some idx → st1[idx]? = some cur →
      (GoValue.set cur v).1 = none → cur = .autoHelp →
      dispatchWalk pview store pos (pre ++ .option n v :: post) =
        ⟨.help, st1.set idx (GoValue.set cur v).2, pos1⟩) := by
  refine ⟨?_, ?_, ?_⟩
  · intro pview store pos results
    induction results generalizing store pos with
    | nil =>
      intro st1 pos1 h
      simp [dispatchWalk] at h
      simp [h.2]
    | cons r rs ih =>
      intro st1 pos1 h
      cases r with
      | positionalArgument v =>
        simp only [dispatchWalk] at h
        have := ih _ _ _ _ h
        simp [tokPositional?, this]
      | option n v =>
        simp only [dispatchWalk] at h
        cases hl : List.lookup n pview with
        | none => simp [hl] at h
        | some idx =>
          simp only [hl] at h
          cases hs : store[idx]? with
          | none => simp [hs] at h
          | some cur =>
            simp only [hs] at h
            rcases hset : GoValue.set cur v with ⟨e?, newVal⟩
            cases e? with
            | some e => simp [hset] at h
            | none =>
              simp only [hset] at h
              by_cases hah : cur = GoValue.autoHelp
              · simp [hah] at h
              · simp only [if_neg hah] at h
                have := ih _ _ _ _ h
                simp [tokPositional?, this]
  · intro pview store pos pre n v post st1 pos1 idx cur e hpre hl hs hset
    rw [dispatchWalk_append pview _ pre store pos st1 pos1 hpre]
    rcases hsv : GoValue.set cur v with ⟨e?, newVal⟩
    rw [hsv] at hset
    simp only at hset
    subst hset
    simp [dispatchWalk, hl, hs, hsv]
  · intro pview store pos pre n v post st1 pos1 idx cur hpre hl hs hset hah
    subst hah
    rw [dispatchWalk_append pview _ pre store pos st1 pos1 hpre]
    rcases hsv : GoValue.set GoValue.autoHelp v with ⟨e?, newVal⟩
    rw [hsv] at hset
    simp only at hset
    subst hset
    simp [dispatchWalk, hl, hs, hsv]

/-- Witness for C3 (abort conjunct): after one buffered positional, a
failing boolean assignment returns the parse error at once, keeping the
buffered positional and ignoring the later assignment. -/
theorem C3_witness :
    dispatchWalk [("c", 0)] [.bool false] []
        ([.positionalArgument "x"] ++ .option "c" "nope" :: [.option "c" "true"]) =
      ⟨.err (.numError "ParseBool" "nope" .invalid), [.bool false], ["x"]⟩ :=
  C3_dispatch_walk_order_abort_and_help.2.1 [("c", 0)] [.bool false] []
    [.positionalArgument "x"] "c" "nope" [.option "c" "true"] [.bool false] ["x"] 0
    (.bool false) (.numError "ParseBool" "nope" .invalid)
    (by decide) (by decide) (by decide) (by decide)

/-- The option name under which a short flag is registered
(`string(fx.Name)` in Go). -/
def ShortFlag.optName (fx : ShortFlag) : String :=
  Char.toString (Char.ofNat fx.Name)

/-- A membership in the key column of an association list yields a
successful `List.lookup`. -/
theorem lookup_of_mem_keys {β : Type} (k : String) (l : List (String × β))
    (h : k ∈ l.map Prod.fst) : ∃ v, List.lookup k l = some v := by
  induction l with
  | nil => simp at h
  | cons p rest ih =>
    rcases p with ⟨k1, v1⟩
    by_cases hk : k1 = k
    · exact ⟨v1, by simp [List.lookup, hk]⟩
    · have h' : k ∈ rest.map Prod.fst := by
        simp only [List.map_cons, List.mem_cons] at h
        rcases h with h | h
        · exact absurd h.symm hk
        · exact h
      obtain ⟨v, hv⟩ := ih h'
      refine ⟨v, ?_⟩
      have hbeq : (k == k1) = false := by
        simp only [beq_eq_false_iff_ne, ne_eq]
        exact fun hkk => hk hkk.symm
      simp [List.lookup, hbeq, hv]

/-- A well-formed short flag always translates, with the single-character
option name. -/
theorem shortMakeOption_ok (fx : ShortFlag) (h1 : fx.Prefix ≠ "") (h2 : fx.Name ≠ 0) :
    ∃ opt, ShortFlag.MakeOptionRun fx = .ok opt ∧ opt.Name = fx.optName := by
  cases hs : fx.MakeOption <;>
    simp [ShortFlag.MakeOptionRun, hs, ShortFlagMakeOptionAutoHelp, ShortFlagMakeOptionBool,
      ShortFlagMakeOptionWithValue, h1, h2, ShortFlag.optName]

/-- A well-formed long flag always translates, with its own name as the
option name. -/
theorem longMakeOption_ok (fx : LongFlag) (h1 : fx.Prefix ≠ "") (h2 : fx.Name ≠ "") :
    ∃ opt, LongFlag.MakeOptionRun fx = .ok opt ∧ opt.Name = fx.Name := by
  cases hs : fx.MakeOption <;>
    simp [LongFlag.MakeOptionRun, hs, LongFlagMakeOptionAutoHelp, LongFlagMakeOptionBool,
      LongFlagMakeOptionWithRequiredValue, LongFlagMakeOptionWithOptionalValue, h1, h2]

/-- The short-flag translation loop of well-formed flags succeeds and
registers exactly the short option names (latest first) on top of the
incoming view. -/
theorem buildShortOptions_ok (flags : List ShortFlag) :
    ∀ (acc : BuildOut), (∀ fx ∈ flags, fx.Prefix ≠ "" ∧ fx.Name ≠ 0) →
      ∃ out, buildShortOptions flags acc = .ok out ∧
        out.pview.map Prod.fst =
          (flags.map ShortFlag.optName).reverse ++ acc.pview.map Prod.fst := by
  induction flags with
  | nil => intro acc h; exact ⟨acc, rfl, by simp⟩
  | cons fx rest ih =>
    intro acc h
    obtain ⟨opt, hopt, hname⟩ :=
      shortMakeOption_ok fx (h fx (by simp)).1 (h fx (by simp)).2
    obtain ⟨out, hout, hkeys⟩ :=
      ih ⟨acc.options ++ [opt], (opt.Name, fx.Value) :: acc.pview⟩
        (fun fy hy => h fy (by simp [hy]))
    refine ⟨out, ?_, ?_⟩
    · simp only [buildShortOptions, hopt]
      exact hout
    · rw [hkeys]
      simp [hname]

/-- A long flag whose option name is already registered, or will collide
with a well-formed earlier long flag, drives the long-flag translation
loop into the assertion failure. -/
theorem buildLongOptions_collision (fx : LongFlag) (post : List LongFlag)
    (hp : fx.Prefix ≠ "") (hn : fx.Name ≠ "") :
    ∀ (pre : List LongFlag) (acc : BuildOut),
      (∀ fy ∈ pre, fy.Prefix ≠ "" ∧ fy.Name ≠ "") →
      (fx.Name ∈ acc.pview.map Prod.fst ∨ fx.Name ∈ pre.map LongFlag.Name) →
      buildLongOptions (pre ++ fx :: post) acc = .error .assertFailed := by
  intro pre
  induction pre with
  | nil =>
    intro acc hwf hmem
    have hmem' : fx.Name ∈ acc.pview.map Prod.fst := by
      rcases hmem with h | h
      · exact h
      · simp at h
    obtain ⟨opt, hopt, hname⟩ := longMakeOption_ok fx hp hn
    obtain ⟨v, hv⟩ := lookup_of_mem_keys fx.Name acc.pview hmem'
    simp only [List.nil_append, buildLongOptions, hopt, hname, hv]
  | cons fy rest ih =>
    intro acc hwf hmem
    obtain ⟨opt, hopt, hname⟩ :=
      longMakeOption_ok fy (hwf fy (by simp)).1 (hwf fy (by simp)).2
    simp only [List.cons_append, buildLongOptions, hopt]
    cases hl : List.lookup opt.Name acc.pview with
    | some v => rfl
    | none =>
      apply ih ⟨acc.options ++ [opt], (opt.Name, fy.Value) :: acc.pview⟩
        (fun fz hz => hwf fz (by simp [hz]))
      rcases hmem with h | h
      · exact Or.inl (by simp [h])
      · simp only [List.map_cons, List.mem_cons] at h
        rcases h with h | h
        · exact Or.inl (by simp [hname, h])
        · exact Or.inr h

/-- C4 (amended): when a registered long flag resolves to the same option
name as any previously registered flag — any short flag, or an earlier
long flag — and the flags involved are well formed, `Parse` raises the
fatal configuration fault during descriptor translation: the second
conjunct shows the fault is independent of the tokenizer and of the
argument vector, so it happens before any tokenizing, in particular on
an empty argument vector.  (Name collisions between two short flags are
not detected at this stage; see the counterexample.) -/
theorem C4_long_flag_name_collision_is_fatal_before_tokenizing :
    (∀ (fs : FlagSet) (pre : List LongFlag) (fx : LongFlag) (post : List LongFlag),
      (∀ fy ∈ fs.ShortFlags, fy.Prefix ≠ "" ∧ fy.Name ≠ 0) →
      (∀ fy ∈ pre, fy.Prefix ≠ "" ∧ fy.Name ≠ "") →
      fx.Prefix ≠ "" → fx.Name ≠ "" →
      fs.LongFlags = pre ++ fx :: post →
      (fx.Name ∈ fs.ShortFlags.map ShortFlag.optName ∨ fx.Name ∈ pre.map LongFlag.Name) →
      fs.buildParserView = .error .assertFailed) ∧
    (∀ (fs : FlagSet) (store : List GoValue) (args : List String),
      fs.buildParserView = .error .assertFailed →
      ∀ (tok : Tokenizer), FlagSet.Parse tok fs store args = .error .assertFailed) := by
  constructor
  · intro fs pre fx post hshort hpre hp hn hsplit hmem
    obtain ⟨acc, hacc, hkeys⟩ := buildShortOptions_ok fs.ShortFlags ⟨[], []⟩ hshort
    have hmem' : fx.Name ∈ acc.pview.map Prod.fst ∨ fx.Name ∈ pre.map LongFlag.Name := by
      rcases hmem with h | h
      · refine Or.inl ?_
        rw [hkeys]
        simp [h]
      · exact Or.inr h
    simp only [FlagSet.buildParserView, hacc, hsplit]
    exact buildLongOptions_collision fx post hp hn pre acc hpre hmem'
  · intro fs store args hbuild tok
    simp [FlagSet.Parse, FlagSet.parse, hbuild]

/-- Witness for C4: the registry of the library's own regression test — a
short boolean flag named `v` plus a long boolean flag named `v` — hits
the fatal fault with an empty argument vector under any tokenizer (here
one that returns no results). -/
theorem C4_witness :
    FlagSet.Parse (fun _ _ => .ok [])
        ⟨false, .continueOnError,
         [⟨["Show version."], "[=true|false]", "", .bool, "v", "--", 1⟩],
         0, 0, "--", "test",
         [⟨["Enable verbose output."], "", .bool, 118, "-", 0⟩], []⟩
        [.bool false, .bool false] [] = .error .assertFailed := by
  apply C4_long_flag_name_collision_is_fatal_before_tokenizing.2
  exact C4_long_flag_name_collision_is_fatal_before_tokenizing.1
    ⟨false, .continueOnError,
     [⟨["Show version."], "[=true|false]", "", .bool, "v", "--", 1⟩],
     0, 0, "--", "test",
     [⟨["Enable verbose output."], "", .bool, 118, "-", 0⟩], []⟩
    [] ⟨["Show version."], "[=true|false]", "", .bool, "v", "--", 1⟩ []
    (by decide) (by decide) (by decide) (by decide) rfl (Or.inl (by decide))

/-- Counterexample for C4 as stated: two registered short flags both
named `v` resolve to the same option name, yet descriptor translation
completes without any fault (first conjunct), and with a tokenizer that
returns no results for the empty argument vector `Parse` returns plain
success — no fatal configuration fault is raised before (or during)
tokenizing. -/
theorem C4_counterexample :
    FlagSet.buildParserView
        ⟨false, .continueOnError, [], 0, 0, "--", "prog", 
         [⟨["Enable verbose output."], "", .bool, 118, "-", 0⟩,
          ⟨["Show version."], "", .bool, 118, "-", 1⟩], []⟩ =
      .ok ⟨[⟨.groupableArgumentNone, "-", "v", ""⟩, ⟨.groupableArgumentNone, "-", "v", ""⟩],
           [("v", 1), ("v", 0)]⟩ ∧
    FlagSet.Parse (fun _ _ => .ok [])
        ⟨false, .continueOnError, [], 0, 0, "--", "prog", 
         [⟨["Enable verbose output."], "", .bool, 118, "-", 0⟩,
          ⟨["Show version."], "", .bool, 118, "-", 1⟩], []⟩
        [.bool false, .bool false] [] =
      .ok (⟨some none, [], [], [], none⟩, [.bool false, .bool false], []) :=
  ⟨rfl, rfl⟩

/-! ## Usage rendering -/

/-- `DefaultUsagePrinter.positionalArgumentsUsage`: the hint derived from
the positional-argument bounds, unless the printer carries a non-empty
override (`up.PositionalArgumentsUsage`). -/
def positionalArgumentsUsage (override : String) (minArgs maxArgs : Int) : String :=
  if maxArgs ≥ minArgs ∧ maxArgs > 0 then
    let output :=
      if override ≠ "" then override
      else if minArgs = 0 ∧ maxArgs = 1 then "[arg]"
      else if minArgs = 1 ∧ maxArgs = 1 then "arg"
      else if minArgs = 0 ∧ maxArgs > 1 then "[arg ...]"
      else "arg [arg ...]"
    " " ++ output
  else ""

/-- C7: with no override, the positional-argument hint follows the
claimed vocabulary (each word is emitted after the joining space): empty
when the maximum is 0; `[arg]` for (0, 1); `arg` for (1, 1); `[arg ...]`
for minimum 0 and maximum above 1; `arg [arg ...]` for minimum at least 1
and maximum above 1 (under the registry invariant that the minimum does
not exceed the maximum). -/
theorem C7_positional_arguments_usage_vocabulary :
    (∀ (minArgs : Int), positionalArgumentsUsage "" minArgs 0 = "") ∧
    positionalArgumentsUsage "" 0 1 = " " ++ "[arg]" ∧
    positionalArgumentsUsage "" 1 1 = " " ++ "arg" ∧
    (∀ (maxArgs : Int), 1 < maxArgs →
      positionalArgumentsUsage "" 0 maxArgs = " " ++ "[arg ...]") ∧
    (∀ (minArgs maxArgs : Int), 1 ≤ minArgs → minArgs ≤ maxArgs → 1 < maxArgs →
      positionalArgumentsUsage "" minArgs maxArgs = " " ++ "arg [arg ...]") := by
  refine ⟨?_, ?_, ?_, ?_, ?_⟩
  · intro minArgs
    simp [positionalArgumentsUsage]
  · rfl
  · rfl
  · intro maxArgs h
    have h1 : maxArgs ≠ 1 := by omega
    have h0 : (0 : Int) < maxArgs := by omega
    have h0' : (0 : Int) ≤ maxArgs := by omega
    simp [positionalArgumentsUsage, h, h1, h0, h0']
  · intro minArgs maxArgs ha hb hcx
    have hc : maxArgs ≥ minArgs ∧ maxArgs > 0 := ⟨by omega, by omega⟩
    have h1 : minArgs ≠ 0 := by omega
    have h2 : maxArgs ≠ 1 := by omega
    simp [positionalArgumentsUsage, hc, h1, h2]

/-- Witness for C7: concrete bounds exercising the zero-max and the
at-least-one/above-one cases. -/
theorem C7_witness :
    positionalArgumentsUsage "" 3 0 = "" ∧
    positionalArgumentsUsage "" 0 2 = " " ++ "[arg ...]" ∧
    positionalArgumentsUsage "" 1 9 = " " ++ "arg [arg ...]" :=
  ⟨C7_positional_arguments_usage_vocabulary.1 3,
   C7_positional_arguments_usage_vocabulary.2.2.2.1 2 (by decide),
   C7_positional_arguments_usage_vocabulary.2.2.2.2 1 9 (by decide) (by decide) (by decide)⟩

/-- Whether the cell a descriptor is bound to holds the help sentinel
(the Go type assertion `fx.Value.(ValueAutoHelp)`). -/
def cellIsAutoHelp (store : List GoValue) (i : Nat) : Bool :=
  match store[i]? with
  | some .autoHelp => true
  | _ => false

/-- `FlagSet.HelpInvocation`: the command line with which to obtain help,
preferring long flags, or `""` when no help sentinel is registered. -/
def FlagSet.HelpInvocation (fs : FlagSet) (store : List GoValue) : String :=
  match fs.LongFlags.find? (fun fx => cellIsAutoHelp store fx.Value) with
  | some fx => fs.ProgramName ++ " " ++ (fx.Prefix ++ fx.Name)
  | none =>
    match fs.ShortFlags.find? (fun fx => cellIsAutoHelp store fx.Value) with
    | some fx => fs.ProgramName ++ " " ++ (fx.Prefix ++ Char.toString (Char.ofNat fx.Name))
    | none => ""

/-- `DefaultUsagePrinter.PrintUsageError` as the list of lines written to
the stream: the program-prefixed error line, then the program-prefixed
help hint when `HelpInvocation` is non-empty. -/
def PrintUsageError (fs : FlagSet) (store : List GoValue) (errText : String) : List String :=
  let line1 := fs.ProgramName ++ ": " ++ errText
  let cmdline := fs.HelpInvocation store
  if cmdline ≠ "" then
    [line1, fs.ProgramName ++ ": try `" ++ cmdline ++ "' for more help."]
  else
    [line1]

/-- The number of registered descriptors bound to the help sentinel. -/
def FlagSet.countHelpSentinels (fs : FlagSet) (store : List GoValue) : Nat :=
  fs.LongFlags.countP (fun fx => cellIsAutoHelp store fx.Value) +
    fs.ShortFlags.countP (fun fx => cellIsAutoHelp store fx.Value)

/-- A string of the shape `a ++ " " ++ b` is never empty. -/
theorem append_space_append_ne_empty (a b : String) : a ++ " " ++ b ≠ "" := by
  intro h
  have h2 := congrArg String.length h
  rw [String.length_append, String.length_append] at h2
  have hs : (" " : String).length = 1 := rfl
  have he : ("" : String).length = 0 := rfl
  rw [hs, he] at h2
  omega

/-- C8 (amended): a rendered parse error is exactly one program-prefixed
line `<program>: <error>` when no help-sentinel descriptor is registered;
when at least one is registered (not only exactly one), the line is
followed by exactly one program-prefixed hint line naming the help
invocation (preferring the first long-flag sentinel, else the first
short-flag sentinel). -/
theorem C8_usage_error_line_and_hint :
    (∀ (fs : FlagSet) (store : List GoValue) (errText : String),
      fs.countHelpSentinels store = 0 →
      PrintUsageError fs store errText = [fs.ProgramName ++ ": " ++ errText]) ∧
    (∀ (fs : FlagSet) (store : List GoValue) (errText : String),
      0 < fs.countHelpSentinels store →
      fs.HelpInvocation store ≠ "" ∧
      PrintUsageError fs store errText =
        [fs.ProgramName ++ ": " ++ errText,
         fs.ProgramName ++ ": try `" ++ fs.HelpInvocation store ++ "' for more help."]) := by
  constructor
  · intro fs store errText h
    have hl : fs.LongFlags.countP (fun fx => cellIsAutoHelp store fx.Value) = 0 := by
      unfold FlagSet.countHelpSentinels at h
      omega
    have hs : fs.ShortFlags.countP (fun fx => cellIsAutoHelp store fx.Value) = 0 := by
      unfold FlagSet.countHelpSentinels at h
      omega
    have hfl : fs.LongFlags.find? (fun fx => cellIsAutoHelp store fx.Value) = none := by
      rw [List.find?_eq_none]
      intro fx hfx
      have := List.countP_eq_zero.mp hl fx hfx
      simpa using this
    have hfs : fs.ShortFlags.find? (fun fx => cellIsAutoHelp store fx.Value) = none := by
      rw [List.find?_eq_none]
      intro fx hfx
      have := List.countP_eq_zero.mp hs fx hfx
      simpa using this
    have hinv : fs.HelpInvocation store = "" := by
      unfold FlagSet.HelpInvocation
      rw [hfl, hfs]
    simp [PrintUsageError, hinv]
  · intro fs store errText h
    have hne : fs.HelpInvocation store ≠ "" := by
      unfold FlagSet.HelpInvocation
      cases hfl : fs.LongFlags.find? (fun fx => cellIsAutoHelp store fx.Value) with
      | some fx => exact append_space_append_ne_empty fs.ProgramName (fx.Prefix ++ fx.Name)
      | none =>
        cases hfs : fs.ShortFlags.find? (fun fx => cellIsAutoHelp store fx.Value) with
        | some fx =>
          exact append_space_append_ne_empty fs.ProgramName
            (fx.Prefix ++ Char.toString (Char.ofNat fx.Name))
        | none =>
          exfalso
          have hl : fs.LongFlags.countP (fun fx => cellIsAutoHelp store fx.Value) = 0 := by
            rw [List.countP_eq_zero]
            intro fx hfx
            have := List.find?_eq_none.mp hfl fx hfx
            simpa using this
          have hs : fs.ShortFlags.countP (fun fx => cellIsAutoHelp store fx.Value) = 0 := by
            rw [List.countP_eq_zero]
            intro fx hfx
            have := List.find?_eq_none.mp hfs fx hfx
            simpa using this
          unfold FlagSet.countHelpSentinels at h
          omega
    exact ⟨hne, by simp [PrintUsageError, hne]⟩

/-- Witness for C8: with no sentinel the rendering is the single error
line; with exactly one registered long help sentinel it is the error line
plus the hint naming `prog --help`. -/
theorem C8_witness :
    PrintUsageError
        ⟨false, .exitOnError, [], 0, 0, "--", "prog", [], []⟩ [] "unknown flag" =
      ["prog" ++ ": " ++ "unknown flag"] ∧
    PrintUsageError
        ⟨false, .exitOnError, [⟨["Show help."], "", "", .autoHelp, "help", "--", 0⟩],
         0, 0, "--", "prog", [], []⟩ [.autoHelp] "unknown flag" =
      ["prog" ++ ": " ++ "unknown flag",
       "prog" ++ ": try `" ++
         FlagSet.HelpInvocation
           ⟨false, .exitOnError, [⟨["Show help."], "", "", .autoHelp, "help", "--", 0⟩],
            0, 0, "--", "prog", [], []⟩ [.autoHelp] ++ "' for more help."] :=
  ⟨C8_usage_error_line_and_hint.1
      ⟨false, .exitOnError, [], 0, 0, "--", "prog", [], []⟩ [] "unknown flag" rfl,
   (C8_usage_error_line_and_hint.2
      ⟨false, .exitOnError, [⟨["Show help."], "", "", .autoHelp, "help", "--", 0⟩],
       0, 0, "--", "prog", [], []⟩ [.autoHelp] "unknown flag" (by decide)).2⟩

/-- Counterexample for C8 as stated: with two registered help-sentinel
descriptors (so not exactly one) the code still renders a hint line — it
names the first long sentinel — whereas the claim requires no hint line
in this case. -/
theorem C8_counterexample :
    FlagSet.countHelpSentinels
        ⟨false, .exitOnError,
         [⟨["Show help."], "", "", .autoHelp, "help", "--", 0⟩,
          ⟨["Show help too."], "", "", .autoHelp, "ayuda", "--", 1⟩],
         0, 0, "--", "prog", [], []⟩ [.autoHelp, .autoHelp] = 2 ∧
    PrintUsageError
        ⟨false, .exitOnError,
         [⟨["Show help."], "", "", .autoHelp, "help", "--", 0⟩,
          ⟨["Show help too."], "", "", .autoHelp, "ayuda", "--", 1⟩],
         0, 0, "--", "prog", [], []⟩ [.autoHelp, .autoHelp] "boom" =
      ["prog: boom", "prog: try `prog --help' for more help."] :=
  ⟨rfl, rfl⟩

/-! ## Alias deduplication in `DefaultUsagePrinter.PrintUsageString`

The flags section first builds one view entry per descriptor (shorts then
longs, each carrying `synopsis = fx.Usage()` and the rendered description
text, with empty alias list), then groups the entries by rendered
description through a map from description to the first entry (the
primary), appending each later duplicate's synopsis to its primary's
alias list and clearing the duplicate, and finally prints one line per
entry with a non-empty description.  The word-wrapping of the rendered
description is an external collaborator; the deduplication and printing
below depend only on the rendered bytes, so they take the built
`(synopsis, description)` pairs as input. -/

/-- `usageFlag`: the per-descriptor view entity of the usage printer. -/
structure usageFlag where
  synopsis : String
  aliases : List String
  description : String
deriving DecidableEq, Repr

/-- A freshly built view entry (`synopsis` and `description` only; the
build loops never set aliases). -/
def buildUflag (p : String × String) : usageFlag :=
  ⟨p.1, [], p.2⟩

/-- Append an alias to the primary entry at index `i` (the Go code
mutates through the pointer stored in the description map). -/
def appendAlias (processed : List usageFlag) (i : Nat) (syn : String) : List usageFlag :=
  match processed[i]? with
  | none => processed
  | some u => processed.set i ⟨u.synopsis, u.aliases ++ [syn], u.description⟩

/-- The grouping loop: `udescr` maps a description to the index of its
primary entry; a repeated description appends the entry's synopsis to the
primary's aliases and stores the entry cleared. -/
def dedupLoop (uflags : List usageFlag) (processed : List usageFlag)
    (udescr : List (String × Nat)) : List usageFlag :=
  match uflags with
  | [] => processed
  | u :: rest =>
    match List.lookup u.description udescr with
    | none =>
        dedupLoop rest (processed ++ [u]) ((u.description, processed.length) :: udescr)
    | some i =>
        dedupLoop rest (appendAlias processed i u.synopsis ++ [⟨"", u.aliases, ""⟩]) udescr

/-- Group the built `(synopsis, description)` view entries. -/
def dedupUsageFlags (pairs : List (String × String)) : List usageFlag :=
  dedupLoop (pairs.map buildUflag) [] []

/-- The final print pass: one `(joined synopsis list, description)` line
per entry, skipping entries whose description is empty. -/
def printFlagLines (uflags : List usageFlag) : List (String × String) :=
  match uflags with
  | [] => []
  | u :: rest =>
    if u.description = "" then printFlagLines rest
    else (String.intercalate ", " (u.synopsis :: u.aliases), u.description) :: printFlagLines rest

/-- The flags-section lines printed for the built view entries. -/
def printedFlagLines (pairs : List (String × String)) : List (String × String) :=
  printFlagLines (dedupUsageFlags pairs)

/-- Specification-side helper: append pending alias lists (indexed by
position) to each entry of a list. -/
def zipAppend (l : List usageFlag) (F : Nat → List String) : List usageFlag :=
  match l with
  | [] => []
  | u :: rest => ⟨u.synopsis, u.aliases ++ F 0, u.description⟩ :: zipAppend rest (fun j => F (j + 1))

/-- Specification-side helper: the synopses the remaining entries will
append to the primary at index `i`, given the current description map. -/
def futureAppends (udescr : List (String × Nat)) (rest : List usageFlag) (i : Nat) :
    List String :=
  (rest.filter (fun u => List.lookup u.description udescr = some i)).map (fun u => u.synopsis)

/-- Specification-side helper: the entries contributed by the remaining
input, given the set of already-claimed descriptions. -/
def dedupRest (uflags : List usageFlag) (seen : List String) : List usageFlag :=
  match uflags with
  | [] => []
  | u :: rest =>
    if u.description ∈ seen then ⟨"", u.aliases, ""⟩ :: dedupRest rest seen
    else
      ⟨u.synopsis,
       u.aliases ++ (rest.filter (fun w => w.description = u.description)).map
          (fun w => w.synopsis),
       u.description⟩ :: dedupRest rest (u.description :: seen)

/-- `List.lookup` misses exactly the keys absent from the key column. -/
theorem lookup_eq_none_iff {β : Type} (k : String) (l : List (String × β)) :
    List.lookup k l = none ↔ k ∉ l.map Prod.fst := by
  induction l with
  | nil => simp
  | cons p rest ih =>
    rcases p with ⟨k1, v1⟩
    by_cases hk : k = k1
    · subst hk
      simp [List.lookup]
    · have hbeq : (k == k1) = false := by
        simp only [beq_eq_false_iff_ne, ne_eq]
        exact hk
      simp [List.lookup, hbeq, ih, hk]

/-- `appendAlias` preserves the length. -/
theorem appendAlias_length (X : List usageFlag) (i : Nat) (s : String) :
    (appendAlias X i s).length = X.length := by
  unfold appendAlias
  cases h : X[i]? <;> simp

/-- `appendAlias` at a successor index skips the head. -/
theorem appendAlias_cons (x : usageFlag) (xs : List usageFlag) (i : Nat) (s : String) :
    appendAlias (x :: xs) (i + 1) s = x :: appendAlias xs i s := by
  unfold appendAlias
  cases h : xs[i]? <;> simp [h]

/-- `zipAppend` with empty pending lists is the identity. -/
theorem zipAppend_nil_fun (l : List usageFlag) :
    zipAppend l (fun _ => []) = l := by
  induction l with
  | nil => rfl
  | cons u rest ih => simp [zipAppend, ih]

/-- `zipAppend` only consults the pending lists at indices below the
length. -/
theorem zipAppend_congr_lt (l : List usageFlag) :
    ∀ (F G : Nat → List String), (∀ j, j < l.length → F j = G j) →
      zipAppend l F = zipAppend l G := by
  induction l with
  | nil => intro F G h; rfl
  | cons u rest ih =>
    intro F G h
    simp only [zipAppend, h 0 (by simp)]
    rw [ih (fun j => F (j + 1)) (fun j => G (j + 1)) (fun j hj => h (j + 1) (by simpa using hj))]

/-- `zipAppend` over a single appended element. -/
theorem zipAppend_append_single (X : List usageFlag) :
    ∀ (y : usageFlag) (F : Nat → List String),
      zipAppend (X ++ [y]) F =
        zipAppend X F ++ [⟨y.synopsis, y.aliases ++ F X.length, y.description⟩] := by
  induction X with
  | nil => intro y F; simp [zipAppend]
  | cons x xs ih =>
    intro y F
    rw [List.cons_append]
    simp only [zipAppend]
    rw [ih y (fun j => F (j + 1))]
    simp

/-- Interchange of `appendAlias` and `zipAppend`: mutating first and then
appending pending lists is appending the extended pending list. -/
theorem zipAppend_appendAlias (X : List usageFlag) :
    ∀ (i : Nat) (s : String) (F : Nat → List String), i < X.length →
      zipAppend (appendAlias X i s) F =
        zipAppend X (fun j => if j = i then s :: F j else F j) := by
  induction X with
  | nil => intro i s F h; simp at h
  | cons x xs ih =>
    intro i s F h
    cases i with
    | zero =>
      have hget : (x :: xs)[0]? = some x := by simp
      simp only [appendAlias, hget, List.set_cons_zero, zipAppend, List.cons.injEq]
      refine ⟨by simp, ?_⟩
      exact zipAppend_congr_lt xs _ _ (fun j hj => by simp)
    | succ i' =>
      rw [appendAlias_cons]
      simp only [zipAppend, List.cons.injEq]
      refine ⟨by simp, ?_⟩
      rw [ih i' s (fun j => F (j + 1)) (by simpa using h)]
      exact zipAppend_congr_lt xs _ _ (fun j hj => by simp [Nat.succ_inj])

/-- Unfolding `futureAppends` over the head of the remaining input. -/
theorem futureAppends_cons (udescr : List (String × Nat)) (u : usageFlag)
    (rest : List usageFlag) (i : Nat) :
    futureAppends udescr (u :: rest) i =
      (if List.lookup u.description udescr = some i then [u.synopsis] else []) ++
        futureAppends udescr rest i := by
  by_cases h : List.lookup u.description udescr = some i <;>
    simp [futureAppends, List.filter_cons, h]

/-- No entry appends to an index at or above the bound of the view. -/
theorem futureAppends_ge (udescr : List (String × Nat)) (rest : List usageFlag) (L : Nat)
    (h : ∀ d i, List.lookup d udescr = some i → i < L) :
    futureAppends udescr rest L = [] := by
  unfold futureAppends
  rw [List.map_eq_nil, List.filter_eq_nil_iff]
  intro u hu
  simp only [decide_eq_true_eq]
  intro hl
  exact absurd (h u.description L hl) (by omega)

/-- Extending the view with a fresh key bound at `L` does not change the
appends at indices below `L`. -/
theorem futureAppends_extend_lt (udescr : List (String × Nat)) (rest : List usageFlag)
    (dNew : String) (L j : Nat) (hj : j < L)
    (hnone : List.lookup dNew udescr = none) :
    futureAppends ((dNew, L) :: udescr) rest j = futureAppends udescr rest j := by
  unfold futureAppends
  congr 1
  apply List.filter_congr
  intro u hu
  by_cases hd : u.description = dNew
  · have h1 : List.lookup u.description ((dNew, L) :: udescr) = some L := by
      simp [List.lookup, hd]
    have h2 : List.lookup u.description udescr = none := by rw [hd]; exact hnone
    simp [h1, h2]
    omega
  · have hbeq : (u.description == dNew) = false := by
      simp only [beq_eq_false_iff_ne, ne_eq]
      exact hd
    simp [List.lookup, hbeq]

/-- With a fresh key bound at `L`, the appends at `L` are exactly the
synopses of the remaining entries with the new description. -/
theorem futureAppends_extend_at (udescr : List (String × Nat)) (rest : List usageFlag)
    (dNew : String) (L : Nat)
    (h : ∀ d i, List.lookup d udescr = some i → i < L) :
    futureAppends ((dNew, L) :: udescr) rest L =
      (rest.filter (fun u => u.description = dNew)).map (fun u => u.synopsis) := by
  unfold futureAppends
  congr 1
  apply List.filter_congr
  intro u hu
  by_cases hd : u.description = dNew
  · have h1 : List.lookup u.description ((dNew, L) :: udescr) = some L := by
      simp [List.lookup, hd]
    simp [h1, hd]
  · have hbeq : (u.description == dNew) = false := by
      simp only [beq_eq_false_iff_ne, ne_eq]
      exact hd
    simp only [List.lookup, hbeq]
    cases hl : List.lookup u.description udescr with
    | none => simp [hl, hd]
    | some i =>
      have hiL : i ≠ L := by
        have := h u.description i hl
        omega
      simp [hl, hd, hiL]

/-- Master characterization of the grouping loop: relative to a
well-indexed state, the result is the already-processed entries with
their pending future aliases appended, followed by the entries
contributed by the remaining input. -/
theorem dedupLoop_spec (uflags : List usageFlag) :
    ∀ (processed : List usageFlag) (udescr : List (String × Nat)),
      (∀ d i, List.lookup d udescr = some i → i < processed.length) →
      dedupLoop uflags processed udescr =
        zipAppend processed (futureAppends udescr uflags) ++
          dedupRest uflags (udescr.map Prod.fst) := by
  induction uflags with
  | nil =>
    intro processed udescr hinv
    simp only [dedupLoop, dedupRest, List.append_nil]
    rw [zipAppend_congr_lt processed (futureAppends udescr []) (fun _ => [])
      (fun j hj => rfl)]
    rw [zipAppend_nil_fun]
  | cons u rest ih =>
    intro processed udescr hinv
    cases hl : List.lookup u.description udescr with
    | none =>
      simp only [dedupLoop, hl]
      have hinv' : ∀ d i,
          List.lookup d ((u.description, processed.length) :: udescr) = some i →
          i < (processed ++ [u]).length := by
        intro d i hdi
        by_cases hd : d = u.description
        · subst hd
          have hbeq : (u.description == u.description) = true := by simp
          simp only [List.lookup, hbeq] at hdi
          simp at hdi
          simp [hdi]
        · have hbeq : (d == u.description) = false := by
            simp only [beq_eq_false_iff_ne, ne_eq]
            exact hd
          simp only [List.lookup, hbeq] at hdi
          have := hinv d i hdi
          simp
          omega
      rw [ih (processed ++ [u]) ((u.description, processed.length) :: udescr) hinv']
      rw [zipAppend_append_single]
      rw [zipAppend_congr_lt processed
        (futureAppends ((u.description, processed.length) :: udescr) rest)
        (futureAppends udescr rest)
        (fun j hj => futureAppends_extend_lt udescr rest u.description processed.length j hj hl)]
      rw [futureAppends_extend_at udescr rest u.description processed.length hinv]
      have hmem : u.description ∉ udescr.map Prod.fst := (lookup_eq_none_iff _ _).mp hl
      rw [show dedupRest (u :: rest) (udescr.map Prod.fst) =
            (⟨u.synopsis,
              u.aliases ++ (rest.filter (fun w => w.description = u.description)).map
                (fun w => w.synopsis),
              u.description⟩ : usageFlag) ::
              dedupRest rest (u.description :: udescr.map Prod.fst)
          from by simp [dedupRest, hmem]]
      have hfa : ∀ j, j < processed.length →
          futureAppends udescr (u :: rest) j = futureAppends udescr rest j := by
        intro j hj
        rw [futureAppends_cons]
        simp [hl]
      rw [zipAppend_congr_lt processed (futureAppends udescr (u :: rest))
        (futureAppends udescr rest) hfa]
      simp
    | some i =>
      have hiL : i < processed.length := hinv u.description i hl
      simp only [dedupLoop, hl]
      have hinv2 : ∀ d k, List.lookup d udescr = some k →
          k < (appendAlias processed i u.synopsis ++ [(⟨"", u.aliases, ""⟩ : usageFlag)]).length := by
        intro d k hdk
        have := hinv d k hdk
        rw [List.length_append, appendAlias_length]
        simp
        omega
      rw [ih _ udescr hinv2]
      rw [zipAppend_append_single]
      rw [zipAppend_appendAlias processed i u.synopsis (futureAppends udescr rest) hiL]
      have hmem : u.description ∈ udescr.map Prod.fst := by
        by_contra hmem
        rw [← lookup_eq_none_iff] at hmem
        rw [hmem] at hl
        exact Option.noConfusion hl
      rw [show dedupRest (u :: rest) (udescr.map Prod.fst) =
            (⟨"", u.aliases, ""⟩ : usageFlag) :: dedupRest rest (udescr.map Prod.fst)
          from by simp [dedupRest, hmem]]
      have hfa : ∀ j, j < processed.length →
          futureAppends udescr (u :: rest) j =
            (fun j => if j = i then u.synopsis :: futureAppends udescr rest j
                      else futureAppends udescr rest j) j := by
        intro j hj
        rw [futureAppends_cons]
        by_cases hji : j = i
        · subst hji
          simp [hl]
        · have hsome : ¬ (List.lookup u.description udescr = some j) := by
            rw [hl]
            simp
            omega
          simp [hsome, hji]
      rw [zipAppend_congr_lt processed (futureAppends udescr (u :: rest)) _ hfa]
      rw [appendAlias_length]
      rw [futureAppends_ge udescr rest processed.length hinv]
      simp

/-- The grouping loop run from the initial empty state is described by
`dedupRest` alone. -/
theorem dedupUsageFlags_eq_dedupRest (pairs : List (String × String)) :
    dedupUsageFlags pairs = dedupRest (pairs.map buildUflag) [] := by
  unfold dedupUsageFlags
  rw [dedupLoop_spec (pairs.map buildUflag) [] []
    (by intro d i h; simp [List.lookup] at h)]
  simp [zipAppend]

/-- Every printed line's description is unclaimed and non-empty. -/
theorem printFlagLines_dedupRest_mem (uflags : List usageFlag) :
    ∀ (seen : List String) (l : String × String),
      l ∈ printFlagLines (dedupRest uflags seen) → l.2 ∉ seen ∧ l.2 ≠ "" := by
  induction uflags with
  | nil => intro seen l h; simp [dedupRest, printFlagLines] at h
  | cons u rest ih =>
    intro seen l h
    by_cases hs : u.description ∈ seen
    · simp only [dedupRest, if_pos hs] at h
      simp only [printFlagLines, if_pos rfl] at h
      exact ih seen l h
    · simp only [dedupRest, if_neg hs] at h
      by_cases hd : u.description = ""
      · simp only [printFlagLines, if_pos hd] at h
        have := ih (u.description :: seen) l h
        exact ⟨fun hm => this.1 (by simp [hm]), this.2⟩
      · simp only [printFlagLines, if_neg hd] at h
        rcases List.mem_cons.mp h with h | h
        · subst h
          exact ⟨hs, hd⟩
        · have := ih (u.description :: seen) l h
          exact ⟨fun hm => this.1 (by simp [hm]), this.2⟩

/-- Dropping the empty-description entries from the input does not change
the printed lines (the claimed-description sets may differ on `""`). -/
theorem printFlagLines_dedupRest_filter (uflags : List usageFlag) :
    ∀ (seen1 seen2 : List String),
      (∀ d, d ≠ "" → (d ∈ seen1 ↔ d ∈ seen2)) →
      printFlagLines (dedupRest uflags seen1) =
        printFlagLines (dedupRest (uflags.filter (fun u => u.description ≠ "")) seen2) := by
  induction uflags with
  | nil => intro seen1 seen2 h; rfl
  | cons u rest ih =>
    intro seen1 seen2 hiff
    by_cases hd : u.description = ""
    · have hf : (u :: rest).filter (fun u => u.description ≠ "") =
          rest.filter (fun u => u.description ≠ "") := by
        simp [List.filter_cons, hd]
      rw [hf]
      by_cases hs : u.description ∈ seen1
      · simp only [dedupRest, if_pos hs]
        simp only [printFlagLines, if_pos rfl]
        exact ih seen1 seen2 hiff
      · simp only [dedupRest, if_neg hs]
        simp only [printFlagLines, if_pos hd]
        refine ih (u.description :: seen1) seen2 ?_
        intro d hdne
        rw [← hiff d hdne]
        constructor
        · intro hm
          rcases List.mem_cons.mp hm with hm | hm
          · exact absurd (hm.trans hd) hdne
          · exact hm
        · intro hm
          exact List.mem_cons.mpr (Or.inr hm)
    · have hf : (u :: rest).filter (fun u => u.description ≠ "") =
          u :: rest.filter (fun u => u.description ≠ "") := by
        simp [List.filter_cons, hd]
      rw [hf]
      by_cases hs : u.description ∈ seen1
      · have hs2 : u.description ∈ seen2 := (hiff u.description hd).mp hs
        simp only [dedupRest, if_pos hs, if_pos hs2]
        simp only [printFlagLines, if_pos rfl]
        exact ih seen1 seen2 hiff
      · have hs2 : u.description ∉ seen2 := fun hm => hs ((hiff u.description hd).mpr hm)
        simp only [dedupRest, if_neg hs, if_neg hs2]
        simp only [printFlagLines, if_neg hd]
        have hgrp : (rest.filter (fun u => u.description ≠ "")).filter
            (fun w => w.description = u.description) =
            rest.filter (fun w => w.description = u.description) := by
          rw [List.filter_filter]
          apply List.filter_congr
          intro w hw
          by_cases hwd : w.description = u.description
          · simp [hwd, hd]
          · simp [hwd]
        rw [hgrp]
        rw [ih (u.description :: seen1) (u.description :: seen2) ?_]
        intro d hdne
        constructor
        · intro hm
          rcases List.mem_cons.mp hm with hm | hm
          · exact List.mem_cons.mpr (Or.inl hm)
          · exact List.mem_cons.mpr (Or.inr ((hiff d hdne).mp hm))
        · intro hm
          rcases List.mem_cons.mp hm with hm | hm
          · exact List.mem_cons.mpr (Or.inl hm)
          · exact List.mem_cons.mpr (Or.inr ((hiff d hdne).mpr hm))

/-- The printed lines carrying one fixed non-empty unclaimed description:
none when no entry renders it, and exactly one line joining the group's
synopses in input order when some entry does. -/
theorem printFlagLines_dedupRest_group (uflags : List usageFlag) :
    ∀ (seen : List String) (d : String), d ≠ "" → d ∉ seen →
      (∀ u ∈ uflags, u.aliases = []) →
      (printFlagLines (dedupRest uflags seen)).filter (fun l => l.2 = d) =
        (if (uflags.filter (fun u => u.description = d)) = [] then []
         else [(String.intercalate ", "
                ((uflags.filter (fun u => u.description = d)).map (fun u => u.synopsis)),
                d)]) := by
  induction uflags with
  | nil => intro seen d hd hds hal; simp [dedupRest, printFlagLines]
  | cons u rest ih =>
    intro seen d hd hds hal
    have hu : u.aliases = [] := hal u (by simp)
    have hal' : ∀ w ∈ rest, w.aliases = [] := fun w hw => hal w (by simp [hw])
    by_cases hs : u.description ∈ seen
    · have hne : u.description ≠ d := fun he => hds (he ▸ hs)
      simp only [dedupRest, if_pos hs]
      have hskip : printFlagLines ((⟨"", u.aliases, ""⟩ : usageFlag) ::
          dedupRest rest seen) = printFlagLines (dedupRest rest seen) := by
        simp [printFlagLines]
      rw [hskip, ih seen d hd hds hal']
      simp [List.filter_cons, hne]
    · by_cases hd2 : u.description = d
      · simp only [dedupRest, if_neg hs]
        have hdne : u.description ≠ "" := by rw [hd2]; exact hd
        simp only [printFlagLines, if_neg hdne]
        have htail : (printFlagLines (dedupRest rest (u.description :: seen))).filter
            (fun l => l.2 = d) = [] := by
          rw [List.filter_eq_nil_iff]
          intro l hl
          have hm := printFlagLines_dedupRest_mem rest (u.description :: seen) l hl
          simp only [decide_eq_true_eq]
          intro hld
          exact hm.1 (by simp [hld, hd2])
        rw [List.filter_cons]
        simp [hd2, htail, hu, List.filter_cons]
        intro a b hab hbd
        have hm := printFlagLines_dedupRest_mem rest (d :: seen) (a, b) hab
        exact hm.1 (by simp [hbd])
      · simp only [dedupRest, if_neg hs]
        have hgrp : (u :: rest).filter (fun w => w.description = d) =
            rest.filter (fun w => w.description = d) := by
          simp [List.filter_cons, hd2]
        rw [hgrp]
        by_cases hd0 : u.description = ""
        · simp only [printFlagLines, if_pos hd0]
          refine ih (u.description :: seen) d hd ?_ hal'
          intro hm
          rcases List.mem_cons.mp hm with hm | hm
          · exact hd (hm.trans hd0)
          · exact hds hm
        · simp only [printFlagLines, if_neg hd0]
          rw [List.filter_cons]
          have hpred : ¬ ((String.intercalate ", "
              (u.synopsis :: (u.aliases ++ (rest.filter
                (fun w => w.description = u.description)).map (fun w => w.synopsis))),
              u.description) : String × String).2 = d := hd2
          rw [if_neg (by simpa using hpred)]
          refine ih (u.description :: seen) d hd ?_ hal'
          intro hm
          rcases List.mem_cons.mp hm with hm | hm
          · exact hd2 hm.symm
          · exact hds hm

/-- Built view entries and input pairs correspond under filtering by
description. -/
theorem buildUflag_filter_descr (pairs : List (String × String)) (p : String × String → Bool)
    (q : usageFlag → Bool) (h : ∀ x, q (buildUflag x) = p x) :
    (pairs.map buildUflag).filter q = (pairs.filter p).map buildUflag := by
  rw [List.filter_map]
  congr 1
  apply List.filter_congr
  intro x hx
  exact h x

/-- C10: a flag whose description renders empty never appears in the
Flags section: the printed lines are unchanged when the empty-description
entries are removed from the input, and every printed line carries a
non-empty description. -/
theorem C10_empty_description_entries_never_printed :
    (∀ (pairs : List (String × String)),
      printedFlagLines pairs = printedFlagLines (pairs.filter (fun p => p.2 ≠ ""))) ∧
    (∀ (pairs : List (String × String)) (l : String × String),
      l ∈ printedFlagLines pairs → l.2 ≠ "") := by
  constructor
  · intro pairs
    unfold printedFlagLines
    rw [dedupUsageFlags_eq_dedupRest, dedupUsageFlags_eq_dedupRest]
    rw [printFlagLines_dedupRest_filter (pairs.map buildUflag) [] []
      (fun d hd => Iff.rfl)]
    rw [buildUflag_filter_descr pairs (fun p => p.2 ≠ "") (fun u => u.description ≠ "")
      (fun x => rfl)]
  · intro pairs l hl
    unfold printedFlagLines at hl
    rw [dedupUsageFlags_eq_dedupRest] at hl
    exact (printFlagLines_dedupRest_mem (pairs.map buildUflag) [] l hl).2

/-- Witness for C10: a single empty-description entry produces no line,
and a line produced by a non-empty description is indeed non-empty. -/
theorem C10_witness :
    printedFlagLines [("-q", ""), ("-v", "Verbose.")] = [("-v", "Verbose.")] ∧
    ("Verbose." : String) ≠ "" :=
  ⟨by
    have h := C10_empty_description_entries_never_printed.1 [("-q", ""), ("-v", "Verbose.")]
    rw [h]
    rfl,
   C10_empty_description_entries_never_printed.2 [("-q", ""), ("-v", "Verbose.")]
     ("-v", "Verbose.") (by decide)⟩

/-- C5 (amended): all view entries rendering one byte-identical non-empty
description collapse into exactly one printed line whose synopsis list is
the group's synopses in input order (the first entry is the primary, each
later one is appended), joined by `", "`; in particular a short and a
long form with one shared description produce one line with both
synopses.  (A group whose shared description is empty instead produces no
line at all; see the counterexample.) -/
theorem C5_identical_descriptions_merge_into_single_line :
    ∀ (pairs : List (String × String)) (d : String), d ≠ "" →
      pairs.filter (fun p => p.2 = d) ≠ [] →
      (printedFlagLines pairs).filter (fun l => l.2 = d) =
        [(String.intercalate ", " ((pairs.filter (fun p => p.2 = d)).map Prod.fst), d)] := by
  intro pairs d hd hne
  unfold printedFlagLines
  rw [dedupUsageFlags_eq_dedupRest]
  rw [printFlagLines_dedupRest_group (pairs.map buildUflag) [] d hd (by simp)
    (by intro u hu; simp at hu; obtain ⟨x, y, _, hx⟩ := hu; rw [← hx]; rfl)]
  rw [buildUflag_filter_descr pairs (fun p => p.2 = d) (fun u => u.description = d)
    (fun x => rfl)]
  rw [if_neg (by simpa using hne)]
  rw [List.map_map]
  rfl

/-- Witness for C5: a short and a long synopsis sharing one description
merge into the single line `-h, --help`. -/
theorem C5_witness :
    (printedFlagLines [("-h", "Show help."), ("--help", "Show help.")]).filter
        (fun l => l.2 = "Show help.") =
      [("-h, --help", "Show help.")] :=
  (C5_identical_descriptions_merge_into_single_line
      [("-h", "Show help."), ("--help", "Show help.")] "Show help."
      (by decide) (by decide)).trans (by decide)

/-- Counterexample for C5 as stated: two entries with byte-identical
(empty) descriptions yield zero usage lines for the group, not exactly
one. -/
theorem C5_counterexample :
    printedFlagLines [("-h", ""), ("--help", "")] = [] := rfl
